import Mathlib

/-!
Verification of the inventory reconciliation / lot-tracking engine of the
Stampante Ciccio repository (src/app.py, src/leggi_fogli.py).

The Python source is shallowly embedded: strings are Lean strings handled
through character-list helpers mirroring Python string methods for the
ASCII data the program manipulates, the remote spreadsheet is a list of
rows of cell strings, the in-memory cache is an explicit state record, and
the wall clock, the remote store handle and the success of remote writes
are explicit parameters.
-/

/-! ## Python string primitives (ASCII fragment used by the program) -/

/-- Whitespace characters stripped by the Python `str.strip` method. -/
def pyWs (c : Char) : Bool :=
  c = ' ' || c = '\t' || c = '\n' || c = '\x0d' || c = '\x0b' || c = '\x0c'

/-- Character-list version of Python `str.strip`. -/
def pyStripL (l : List Char) : List Char :=
  ((l.dropWhile pyWs).reverse.dropWhile pyWs).reverse

/-- Python `str.strip` on strings. -/
def pyStrip (s : String) : String := ⟨pyStripL s.data⟩

/-- Python `str.lower` (ASCII). -/
def pyLower (s : String) : String := ⟨s.data.map Char.toLower⟩

/-- Python `str.upper` (ASCII). -/
def pyUpper (s : String) : String := ⟨s.data.map Char.toUpper⟩

/-- Numeric value of a digit character. -/
def digitVal (c : Char) : Nat := c.toNat - 48

/-- Decimal value of a list of digit characters. -/
def digitsVal (l : List Char) : Nat :=
  l.foldl (fun a c => a * 10 + digitVal c) 0

/-- Digit character for a value below ten. -/
def digitChar (d : Nat) : Char := Char.ofNat (48 + d)

/-- Decimal digit characters of a natural number, fuel-indexed so the
recursion is structural. -/
def natDigitsAux : Nat → Nat → List Char
  | 0, _ => []
  | fuel + 1, n =>
    if n < 10 then [digitChar n]
    else natDigitsAux fuel (n / 10) ++ [digitChar (n % 10)]

/-- Decimal digit characters of a natural number. -/
def natChars (n : Nat) : List Char := natDigitsAux (n + 1) n

/-- Rendering of an integer as a spreadsheet cell string, mirroring how a
numeric `update_cell` / `append_row` argument reads back through
`get_all_values`. -/
def intToCell (n : Int) : String :=
  if n < 0 then ⟨'-' :: natChars (-n).toNat⟩ else ⟨natChars n.toNat⟩

/-- Python `int(s)` on a cell string: strip, optional sign, digits;
`none` models the `ValueError` branch. -/
def pyIntL (l : List Char) : Option Int :=
  match pyStripL l with
  | '-' :: ds => if ds ≠ [] ∧ ds.all Char.isDigit then some (-(digitsVal ds : Int)) else none
  | '+' :: ds => if ds ≠ [] ∧ ds.all Char.isDigit then some (digitsVal ds : Int) else none
  | ds => if ds ≠ [] ∧ ds.all Char.isDigit then some (digitsVal ds : Int) else none

/-- Python `int(s)` on strings. -/
def pyInt (s : String) : Option Int := pyIntL s.data

/-- Two-digit zero-padded rendering, mirroring the `%d`, `%m`, `%y`
directives of `strftime` on day, month and year-mod-100 components. -/
def fmt2 (n : Nat) : String :=
  if n < 10 then ⟨['0', digitChar n]⟩ else ⟨natChars n⟩

/-! ## Lot identifier service -/

/-- `leggi_fogli.genera_lotto_interno`: the internal-lot helper formats
`datetime.now()` with `"%d%d%m%y"` (day twice, month, two-digit year) and
appends the product short code.  Note: no `"L"` prefix appears in this
function. -/
def genera_lotto_interno (giorno mese anno : Nat) (sigla : String) : String :=
  fmt2 giorno ++ fmt2 giorno ++ fmt2 mese ++ fmt2 (anno % 100) ++ sigla

/-- The internal lot string produced inline by the engine call sites in
`app.py` (`stampa_singolo`, `prepara_stampa_linea`, `stampa_linea_totale`,
`aggiungi_prodotto`, `stampa_ristampa`):
`f"L{datetime.now().strftime(chr(37) + dmy)}{sigla}"`, i.e. a literal
`"L"` followed by the same day-day-month-year rendering and the code. -/
def lottoInternoApp (giorno mese anno : Nat) (sigla : String) : String :=
  "L" ++ fmt2 giorno ++ fmt2 giorno ++ fmt2 mese ++ fmt2 (anno % 100) ++ sigla

/-- `app._normalizza_lotto_esterno` on character lists: whitespace-only
input is returned unchanged; otherwise strip, uppercase, and prefix a
`'L'` unless one is already present. -/
def normLottoL (l : List Char) : List Char :=
  if pyStripL l = [] then l
  else
    match (pyStripL l).map Char.toUpper with
    | 'L' :: rest => 'L' :: rest
    | u => 'L' :: u

/-- `app._normalizza_lotto_esterno` on strings. -/
def normLotto (s : String) : String := ⟨normLottoL s.data⟩

/-! ## Date parsing (`app._parse_date_any` and the ISO parser of
`cancella_prodotto_per_tipo`) -/

/-- Split a character list at every occurrence of a separator character,
keeping empty pieces, like the regex-style field decomposition that
`strptime` performs on these formats. -/
def splitSep (sep : Char) : List Char → List Char → List (List Char)
  | [], cur => [cur.reverse]
  | c :: rest, cur =>
    if c = sep then cur.reverse :: splitSep sep rest []
    else splitSep sep rest (c :: cur)

/-- Leap-year rule used by `datetime` when validating a day of month. -/
def isLeap (y : Nat) : Bool :=
  y % 4 = 0 && (y % 100 ≠ 0 || y % 400 = 0)

/-- Number of days of a month, as validated by the `datetime` constructor. -/
def daysInMonth (y m : Nat) : Nat :=
  if m = 2 then (if isLeap y then 29 else 28)
  else if m = 4 ∨ m = 6 ∨ m = 9 ∨ m = 11 then 30
  else 31

/-- A `%Y` field: exactly four digit characters. -/
def isYearTok (l : List Char) : Bool := l.length = 4 && l.all Char.isDigit

/-- A `%m` or `%d` field: one or two digit characters. -/
def isTwoTok (l : List Char) : Bool :=
  (l.length = 1 || l.length = 2) && l.all Char.isDigit

/-- Validity of a (year, month, day) triple for the `datetime` constructor. -/
def validYmd (y m d : Nat) : Bool :=
  1 ≤ y && 1 ≤ m && m ≤ 12 && 1 ≤ d && d ≤ daysInMonth y m

/-- `datetime.strptime(s, iso)` for the ISO `%Y-%m-%d` format. -/
def parseYmdL (l : List Char) : Option (Nat × Nat × Nat) :=
  match splitSep '-' l [] with
  | [ys, ms, ds] =>
    if isYearTok ys && isTwoTok ms && isTwoTok ds then
      let y := digitsVal ys
      let m := digitsVal ms
      let d := digitsVal ds
      if validYmd y m d then some (y, m, d) else none
    else none
  | _ => none

/-- `datetime.strptime(s, dmy)` for the `%d/%m/%Y` format. -/
def parseDmyL (l : List Char) : Option (Nat × Nat × Nat) :=
  match splitSep '/' l [] with
  | [ds, ms, ys] =>
    if isYearTok ys && isTwoTok ms && isTwoTok ds then
      let y := digitsVal ys
      let m := digitsVal ms
      let d := digitsVal ds
      if validYmd y m d then some (y, m, d) else none
    else none
  | _ => none

/-- `app._parse_date_any`: strip the input, try ISO `%Y-%m-%d`, then
`%d/%m/%Y`, and give up (`None`) otherwise. -/
def parseDateAny (s : String) : Option (Nat × Nat × Nat) :=
  match parseYmdL (pyStripL s.data) with
  | some v => some v
  | none => parseDmyL (pyStripL s.data)

/-- Order-preserving numeric key of a calendar date. -/
def dateKey (v : Nat × Nat × Nat) : Nat := v.1 * 10000 + v.2.1 * 100 + v.2.2

/-- Key of the minimum `datetime` value `datetime.min` (year 1, month 1,
day 1), the fallback `app` uses for unparsable start dates in the FIFO
selection (`_parse_date_any(x) or datetime.min`). -/
def minDateKey : Nat := dateKey (1, 1, 1)

/-- Sort key assigned to a start-date string by the FIFO selection. -/
def dataInizioKey (s : String) : Nat :=
  match parseDateAny s with
  | some v => dateKey v
  | none => minDateKey


/-! ## Cleaned stock rows (`app._leggi_db_cached`, lines 77 to 94) -/

/-- One row of the cleaned stock snapshot. -/
structure StockRow where
  rigaId : Nat
  prodotto : String
  qta : Int
  lotto : String
  scadenza : String
  dataInizio : String
deriving DecidableEq

/-- `int(r[1])` with the surrounding `try` that defaults to `0` on
`ValueError`, `IndexError` or `TypeError`. -/
def pyIntD (r : List String) : Int :=
  match r.get? 1 with
  | some s => (pyInt s).getD 0
  | none => 0

/-- The guard under which a raw row enters the cleaned snapshot:
`len(r) > 0 and r[0].strip()` followed by `qta > 0`. -/
def keepRow (r : List String) : Bool :=
  !r.isEmpty && pyStrip (r.headD "") ≠ "" && 0 < pyIntD r

/-- The `StockRow` built from a raw row at spreadsheet position `i`. -/
def mkRow (i : Nat) (r : List String) : StockRow :=
  ⟨i, pyStrip (r.headD ""), pyIntD r, r.getD 4 "N/D", r.getD 5 "N/D", r.getD 6 "N/D"⟩

/-- Cleaning loop over the raw rows after the header, enumerated from
spreadsheet row number `i`. -/
def cleanFrom (i : Nat) : List (List String) → List StockRow
  | [] => []
  | r :: rs => (if keepRow r then [mkRow i r] else []) ++ cleanFrom (i + 1) rs

/-- `giacenze_pulite` computed from the full sheet (`get_all_values`
output, header row included, data rows numbered from 2). -/
def clean (sheet : List (List String)) : List StockRow :=
  cleanFrom 2 (sheet.drop 1)

/-! ## FIFO lot selector (`app.stampa_singolo`, lines 318 to 321, and the
identical blocks in the other routes) -/

/-- Sort key used by the reversed `candidati.sort` in the FIFO selection:
parsed start date, then spreadsheet row id. -/
def fifoKey (g : StockRow) : Nat × Nat := (dataInizioKey g.dataInizio, g.rigaId)

/-- Strict lexicographic comparison of FIFO keys. -/
def fifoLt (a b : Nat × Nat) : Bool :=
  a.1 < b.1 || (a.1 = b.1 && a.2 < b.2)

/-- Candidates of the FIFO selection for a product name (the route strips
the name before filtering). -/
def fifoCandidates (giac : List StockRow) (nome : String) : List StockRow :=
  giac.filter (fun g => pyLower (pyStrip g.prodotto) = pyLower nome)

/-- One step of the best-candidate scan: keep the incumbent unless the
new row has a strictly larger key. -/
def fifoStep (best : Option StockRow) (g : StockRow) : Option StockRow :=
  match best with
  | none => some g
  | some b => if fifoLt (fifoKey b) (fifoKey g) then some g else some b

/-- FIFO selector: the Python code sorts candidates by key descending
(stably) and takes element 0, i.e. it selects the first candidate whose
key is not strictly below the key of any other candidate. -/
def selectLatest (giac : List StockRow) (nome : String) : Option StockRow :=
  (fifoCandidates giac nome).foldl fifoStep none

/-! ## Reconciliation write (`app.stampa_singolo` lines 335 to 348,
`app.aggiungi_prodotto` lines 483 to 496) -/

/-- Key of a cleaned row in the `mappa` dictionary:
`(g.Prodotto.strip().lower(), normalize(g.Lotto.strip()))`. -/
def chiaveDi (g : StockRow) : String × String :=
  (pyLower (pyStrip g.prodotto), normLotto (pyStrip g.lotto))

/-- Lookup in the `mappa` dictionary built by the write routes: a Python
dict writes every cleaned row in order, so the last row with a given key
wins. -/
def mappaLookup (giac : List StockRow) (k : String × String) : Option (Nat × Int) :=
  match giac with
  | [] => none
  | g :: gs =>
    match mappaLookup gs k with
    | some v => some v
    | none => if chiaveDi g = k then some (g.rigaId, g.qta) else none

/-- `ws.update_cell(rid, col, v)` on the sheet model (both indices are
one-based, as in gspread). -/
def updateCell (sheet : List (List String)) (rid col : Nat) (v : String) :
    List (List String) :=
  match sheet.get? (rid - 1) with
  | some r => sheet.set (rid - 1) (r.set (col - 1) v)
  | none => sheet

/-- `ws.append_row(vals)`. -/
def appendRow (sheet : List (List String)) (vals : List String) :
    List (List String) :=
  sheet ++ [vals]

/-- The shared update-or-append write of the mutation routes: look up
`(nome.strip().lower(), lotto)` in the `mappa` built from the cleaned
snapshot; on a hit update the quantity cell of that row to the stored
quantity plus the requested one, otherwise append a fresh row
`[nome, qta, bag tag, empty, lotto, scadenza, data inizio]`. -/
def engineWrite (giac : List StockRow) (sheet : List (List String))
    (nome lotto : String) (qta : Int) (scad dataIn : String) :
    List (List String) :=
  match mappaLookup giac (pyLower (pyStrip nome), lotto) with
  | some (rid, q) => updateCell sheet rid 2 (intToCell (q + qta))
  | none => appendRow sheet [nome, intToCell qta, "busta", "", lotto, scad, dataIn]

/-- Key list of a cleaned snapshot. -/
def chiavi (giac : List StockRow) : List (String × String) := giac.map chiaveDi

/-- The at-most-one-row-per-key invariant of a cleaned snapshot. -/
def atMostOnePerKey (giac : List StockRow) : Prop := (chiavi giac).Nodup

/-- Cleaned snapshot of a sheet projected to (key, quantity) pairs. -/
def snapshotQ (sheet : List (List String)) : List ((String × String) × Int) :=
  (clean sheet).map (fun g => (chiaveDi g, g.qta))

/-! ## Freshness-coordinated cache (`app._is_cache_valid`,
`app.invalidate_cache`, `app._leggi_db_cached`) -/

/-- A catalog record of the ANAGRAFICA sheet, as a field/value list. -/
abbrev AnagRec := List (String × String)

/-- `p.get(k, d)` on a catalog record. -/
def campoD (p : AnagRec) (k d : String) : String :=
  match p.find? (fun kv => kv.1 = k) with
  | some kv => kv.2
  | none => d

/-- `p.get(k, empty)` on a catalog record. -/
def campo (p : AnagRec) (k : String) : String := campoD p k ""

/-- The shared in-memory cache (`_cache`): catalog, cleaned stock,
timestamp in seconds, opaque spreadsheet handle. -/
structure CacheState where
  anagrafica : List AnagRec
  giacenze : List StockRow
  timestamp : Option Int
  sheetRef : Option Nat
deriving DecidableEq

/-- `app._is_cache_valid`: a timestamp is present and strictly less than
30 seconds old. -/
def isCacheValid (now : Int) (c : CacheState) : Bool :=
  match c.timestamp with
  | none => false
  | some ts => now - ts < 30

/-- `app.invalidate_cache`: clear the timestamp only. -/
def invalidateCache (c : CacheState) : CacheState :=
  ⟨c.anagrafica, c.giacenze, none, c.sheetRef⟩

/-- What a fetch from the remote store yields when it does not raise:
catalog records, raw stock rows, and the spreadsheet handle; `none`
models the fetch raising. -/
abbrev FetchResult := Option (List AnagRec × List (List String) × Nat)

/-- `app._leggi_db_cached`: fast path on a valid cache unless a refresh
is forced, otherwise fetch, clean and restamp; on a raising fetch fall
back to the previous snapshot when the cached catalog is non-empty and to
empty collections otherwise.  The final boolean records whether the
external store was contacted. -/
def leggiDbCached (forceRefresh : Bool) (now : Int) (fetch : FetchResult)
    (c : CacheState) :
    (List AnagRec × List StockRow × Option Nat) × CacheState × Bool :=
  if !forceRefresh && isCacheValid now c then
    ((c.anagrafica, c.giacenze, c.sheetRef), c, false)
  else
    match fetch with
    | some (anag, raw, sh) =>
      let giac := clean raw
      ((anag, giac, some sh), ⟨anag, giac, some now, some sh⟩, true)
    | none =>
      if c.anagrafica ≠ [] then ((c.anagrafica, c.giacenze, c.sheetRef), c, true)
      else (([], [], none), c, true)

/-! ## Label layout (`app._disegna_etichetta`, lines 172 to 221) -/

/-- Python `str.split()` with no argument: split on whitespace runs and
drop empty pieces. -/
def splitWsAux : List Char → List Char → List (List Char)
  | [], cur => if cur = [] then [] else [cur.reverse]
  | c :: rest, cur =>
    if pyWs c then
      if cur = [] then splitWsAux rest []
      else cur.reverse :: splitWsAux rest []
    else splitWsAux rest (c :: cur)

/-- Python `nome.split()`. -/
def splitWs (l : List Char) : List (List Char) := splitWsAux l []

/-- The greedy word loop of the long-name branch: state is the pair
(line1, current); a word is appended to `current` while the budget of 16
characters including the trailing blank is respected, the first overflow
moves `current` into `line1`, later overflows keep accumulating. -/
def wrapLoop : List (List Char) → List Char × List Char → List Char × List Char
  | [], st => st
  | w :: ws, (line1, current) =>
    if (current ++ w ++ [' ']).length ≤ 16 then
      wrapLoop ws (line1, current ++ w ++ [' '])
    else if line1 = [] then
      wrapLoop ws (pyStripL current, w ++ [' '])
    else
      wrapLoop ws (line1, current ++ w ++ [' '])

/-- The two lines produced for a long product name, including the
post-loop flush and the final hard-truncation fallback. -/
def spezzaNome (nome : List Char) : List Char × List Char :=
  let st := wrapLoop (splitWs nome) ([], [])
  let l1 := if st.1 = [] then (pyStripL st.2).take 16 else st.1
  let l2 := if st.1 = [] then [] else (pyStripL st.2).take 16
  if l2 = [] ∧ nome.length > 16 ∧ l1 = [] then
    (nome.take 16, pyStripL ((nome.drop 16).take 16))
  else (l1, l2)

/-- Name block of the label: font size and the drawn lines (a line equal
to the empty string is not drawn by the code). -/
structure NomeLayout where
  font : Nat
  line1 : String
  line2 : String
deriving DecidableEq

/-- Name layout decision of `_disegna_etichetta`: at most 16 characters
gives a single line in the size-12 bold font, otherwise the greedy split
in the size-10 bold font. -/
def nomeLayout (nome : String) : NomeLayout :=
  if nome.data.length > 16 then
    let p := spezzaNome nome.data
    ⟨10, ⟨p.1⟩, ⟨p.2⟩⟩
  else ⟨12, nome, ""⟩

/-- Number of name lines actually drawn. -/
def drawnLines (nl : NomeLayout) : Nat :=
  (if nl.line1 = "" then 0 else 1) + (if nl.line2 = "" then 0 else 1)

/-! ## Category and request-level mutation models -/

/-- Prefix test on character lists. -/
def prefixOf : List Char → List Char → Bool
  | [], _ => true
  | _ :: _, [] => false
  | a :: as, b :: bs => a = b && prefixOf as bs

/-- Infix containment of character lists (Python `in` on strings). -/
def containsSub (pat : List Char) : List Char → Bool
  | [] => prefixOf pat []
  | c :: t => prefixOf pat (c :: t) || containsSub pat t

/-- `app._canon_categoria`: any value whose stripped lowercase form
contains the letters of `intern` is internal, everything else external. -/
def canonCategoria (catRaw : String) : String :=
  if containsSub "intern".data (pyLower (pyStrip catRaw)).data then "interno"
  else "esterno"

/-- Clamp of the requested quantity in `stampa_singolo` and
`stampa_linea_totale`: `max(1, min(qta, 500))`. -/
def clampQta (q : Int) : Int := max 1 (min q 500)

/-- JSON-level outcome of a mutation route: an HTTP-style error with
status and message, or success carrying the resolved lot. -/
inductive Risposta where
  | errore (status : Nat) (msg : String)
  | success (lotto : String)
deriving DecidableEq

/-- Outcome of a mutation route together with the sheet after the
request and the cache after the request. -/
structure EsitoMutazione where
  risposta : Risposta
  sheet : List (List String)
  cache : CacheState
deriving DecidableEq

/-- Product lookup shared by the routes:
`next(p for p in anag if p.get(PRODOTTO).strip().lower() == nome.lower())`. -/
def trovaProdotto (anag : List AnagRec) (nome : String) : Option AnagRec :=
  anag.find? (fun p => pyLower (pyStrip (campo p "PRODOTTO")) = pyLower nome)

/-- Lot resolution of `stampa_singolo` (lines 309 to 325): internal
products always get the generated lot; external products use the
normalized caller lot when one is supplied, otherwise the FIFO selection,
failing with the missing-lot message when nothing usable is found. -/
def risolviLottoStampa (pInfo : AnagRec) (giac : List StockRow)
    (nome lottoIn : String) (giorno mese anno : Nat) :
    Except (Nat × String) String :=
  if canonCategoria (campo pInfo "CATEGORIA") = "interno" then
    .ok (lottoInternoApp giorno mese anno (campoD pInfo "SIGLA" "XX"))
  else
    if pyStrip lottoIn ≠ "" then .ok (normLotto (pyStrip lottoIn))
    else
      match selectLatest giac nome with
      | some g =>
        let l := normLotto (pyStrip g.lotto)
        if l = "" then .error (400, "Lotto esterno mancante. Inseriscilo.")
        else .ok l
      | none => .error (400, "Lotto esterno mancante. Inseriscilo.")

/-- `app.stampa_singolo` without the PDF body: name check, product
lookup, lot resolution, then the guarded write block followed by the
cache invalidation; a raising write (modelled by `writeOk` false) leaves
both the sheet and the cache untouched and returns the 500 error.  The
date-dependent strings written to the expiry and start-date cells are
parameters of the embedding. -/
def stampaSingoloCore (anag : List AnagRec) (giac : List StockRow)
    (sheet : List (List String)) (nomeIn lottoIn : String) (qtaIn : Int)
    (giorno mese anno : Nat) (scadSheet dataInizioSheet : String)
    (writeOk : Bool) (c : CacheState) : EsitoMutazione :=
  let nome := pyStrip nomeIn
  let qta := clampQta qtaIn
  if nome = "" then ⟨.errore 400 "Nome prodotto mancante.", sheet, c⟩
  else
    match trovaProdotto anag nome with
    | none => ⟨.errore 404 "Prodotto non trovato.", sheet, c⟩
    | some pInfo =>
      match risolviLottoStampa pInfo giac nome lottoIn giorno mese anno with
      | .error e => ⟨.errore e.1 e.2, sheet, c⟩
      | .ok lotto =>
        if writeOk then
          ⟨.success lotto, engineWrite giac sheet nome lotto qta scadSheet dataInizioSheet,
            invalidateCache c⟩
        else ⟨.errore 500 "errore di scrittura", sheet, c⟩

/-- `app.aggiungi_prodotto` (lines 454 to 499): quantity clamped with
`max(0, min(qta, 500))` and rejected below 1; the category comes from the
raw lowercased field compared with the exact word for internal; an
external product with no caller-supplied lot silently proceeds with the
empty lot, and the FIFO selector is never consulted. -/
def aggiungiProdottoCore (anag : List AnagRec) (giac : List StockRow)
    (sheet : List (List String)) (nomeIn : String) (qtaIn : Int)
    (lottoIn : String) (giorno mese anno : Nat)
    (scadSheet dataInizioSheet : String) (writeOk : Bool) (c : CacheState) :
    EsitoMutazione :=
  let nome := pyStrip nomeIn
  let qta := max 0 (min qtaIn 500)
  if nome = "" ∨ qta < 1 then ⟨.errore 400 "Dati non validi.", sheet, c⟩
  else
    let pInfo := trovaProdotto anag nome
    let cat := match pInfo with
      | some p => pyLower (pyStrip (campo p "CATEGORIA"))
      | none => ""
    let sigla := match pInfo with
      | some p => campoD p "SIGLA" "XX"
      | none => "XX"
    let lotto :=
      if cat = "interno" then lottoInternoApp giorno mese anno sigla
      else if lottoIn ≠ "" then normLotto (pyStrip lottoIn) else ""
    if writeOk then
      ⟨.success lotto, engineWrite giac sheet nome lotto qta scadSheet dataInizioSheet,
        invalidateCache c⟩
    else ⟨.errore 500 "errore di scrittura", sheet, c⟩

/-- One line item of `stampa_linea_totale`: request fields plus the
success of its remote write. -/
structure LineaItem where
  nome : String
  lotto : String
  qta : Int
  writeOk : Bool
deriving DecidableEq

/-- The per-item body of the `stampa_linea_totale` loop (lines 398 to
445): resolve the product (silently skipping unresolvable items), resolve
the lot like the single-print route but with a per-product message, then
write under a per-item `try` whose failure is only printed.  On a hit the
route updates both the quantity cell and the expiry cell.  A missing lot
aborts the whole request, keeping the writes already made and skipping
the final invalidation. -/
def lineaLoop (anag : List AnagRec) (giac : List StockRow)
    (giorno mese anno : Nat) (scadSheet dataInizioSheet : String) :
    List LineaItem → List (List String) → CacheState → EsitoMutazione
  | [], sheet, c => ⟨.success "", sheet, invalidateCache c⟩
  | it :: rest, sheet, c =>
    let nome := pyStrip it.nome
    if nome = "" then lineaLoop anag giac giorno mese anno scadSheet dataInizioSheet rest sheet c
    else
      match trovaProdotto anag nome with
      | none => lineaLoop anag giac giorno mese anno scadSheet dataInizioSheet rest sheet c
      | some pInfo =>
        match risolviLottoStampa pInfo giac nome it.lotto giorno mese anno with
        | .error _ => ⟨.errore 400 ("Manca lotto per " ++ nome ++ "."), sheet, c⟩
        | .ok lotto =>
          let qta := clampQta it.qta
          let sheet1 :=
            if it.writeOk then
              match mappaLookup giac (pyLower (pyStrip nome), lotto) with
              | some (rid, q) =>
                updateCell (updateCell sheet rid 2 (intToCell (q + qta))) rid 6 scadSheet
              | none =>
                appendRow sheet [nome, intToCell qta, "busta", "", lotto, scadSheet, dataInizioSheet]
            else sheet
          lineaLoop anag giac giorno mese anno scadSheet dataInizioSheet rest sheet1 c

/-- `app.stampa_linea_totale` for a non-empty item list (the route
rejects empty requests before reading anything). -/
def stampaLineaTotaleCore (anag : List AnagRec) (giac : List StockRow)
    (items : List LineaItem) (giorno mese anno : Nat)
    (scadSheet dataInizioSheet : String) (sheet : List (List String))
    (c : CacheState) : EsitoMutazione :=
  lineaLoop anag giac giorno mese anno scadSheet dataInizioSheet items sheet c

/-! ## Quantity removal (`app.cancella_prodotto_per_tipo`, lines 551
to 588) -/

/-- Sort key of the removal route: only the ISO format is attempted and
an unparsable start date falls back to `datetime.now()`, represented by
the key parameter `nowKey`. -/
def dataCancellaKey (nowKey : Nat) (s : String) : Nat :=
  match parseYmdL s.data with
  | some v => dateKey v
  | none => nowKey

/-- Stable ascending insertion with respect to a numeric key. -/
def insertAsc (key : StockRow → Nat) (g : StockRow) : List StockRow → List StockRow
  | [] => [g]
  | h :: t => if key h ≤ key g then h :: insertAsc key g t else g :: h :: t

/-- Stable ascending sort with respect to a numeric key, matching the
stable Python list sort. -/
def sortAsc (key : StockRow → Nat) : List StockRow → List StockRow
  | [] => []
  | h :: t => insertAsc key h (sortAsc key t)

/-- The consumption loop: stop once nothing remains to remove, skip
non-positive rows, write the difference and stop when a row covers the
remainder, otherwise zero the row and continue.  Returns the cell writes
(row id, new quantity) and the remaining amount. -/
def consumeRighe : Int → List StockRow → List (Nat × Int) × Int
  | rem, [] => ([], rem)
  | rem, r :: rs =>
    if rem ≤ 0 then ([], rem)
    else if r.qta ≤ 0 then consumeRighe rem rs
    else if r.qta > rem then ([(r.rigaId, r.qta - rem)], 0)
    else
      let p := consumeRighe (rem - r.qta) rs
      ((r.rigaId, 0) :: p.1, p.2)

/-- Rows of the removal route for a product name. -/
def righeDi (giac : List StockRow) (nome : String) : List StockRow :=
  giac.filter (fun g => pyLower (pyStrip g.prodotto) = pyLower nome)

/-- `app.cancella_prodotto_per_tipo` after validation: filter the cleaned
rows to the product, sort them by ISO-parsed start date ascending with
the current time as fallback, consume, and report
`cancellate, namely qta - da_rimuovere`. -/
def cancellaCore (giac : List StockRow) (nome : String) (qta : Int)
    (nowKey : Nat) : List (Nat × Int) × Int :=
  let righe := sortAsc (fun g => dataCancellaKey nowKey g.dataInizio) (righeDi giac nome)
  let p := consumeRighe qta righe
  (p.1, qta - p.2)

/-! ## Auxiliary lemmas -/

theorem strMkData (s : String) : (⟨s.data⟩ : String) = s := by
  cases s
  rfl

/-- Stripping a list whose characters are all non-whitespace changes
nothing. -/
theorem pyStripL_of_no_ws (l : List Char) (h : ∀ c ∈ l, pyWs c = false) :
    pyStripL l = l := by
  unfold pyStripL
  have h1 : l.dropWhile pyWs = l := by
    cases l with
    | nil => rfl
    | cons a t =>
      rw [List.dropWhile_cons_of_neg]
      simp [h a (by simp)]
  rw [h1]
  have h2 : l.reverse.dropWhile pyWs = l.reverse := by
    cases hr : l.reverse with
    | nil => rfl
    | cons a t =>
      rw [List.dropWhile_cons_of_neg]
      have : a ∈ l := by
        have : a ∈ l.reverse := by rw [hr]; simp
        simpa using this
      simp [h a this]
  rw [h2, List.reverse_reverse]

/-! ## Claim C2: internal lot encoding -/

/-- C2 counterexample: the internal lot generator of the repository,
`genera_lotto_interno`, invoked for short code SC on day 18, month 02,
year (20)26, returns the string without the literal `L` prefix, so it
does not return the claimed `L` ++ DD ++ DD ++ MM ++ YY ++ S string. -/
theorem C2_counterexample :
    genera_lotto_interno 18 2 2026 "SC" = "18180226SC" ∧
    genera_lotto_interno 18 2 2026 "SC" ≠ "L18180226SC" := by
  constructor
  · decide
  · decide

/-- C2 amended: `genera_lotto_interno` returns exactly
DD ++ DD ++ MM ++ YY ++ S without any prefix, while every engine call
site in `app.py` builds the internal lot inline as the literal `L`
followed by the same day-day-month-year rendering and the short code, so
engine-produced internal lots are exactly `L` ++ DD ++ DD ++ MM ++ YY ++ S;
for code SC on 18/02/(20)26 the engine lot is L18180226SC and the helper
returns 18180226SC. -/
theorem C2_amended :
    (∀ giorno mese anno : Nat, ∀ sigla : String,
      genera_lotto_interno giorno mese anno sigla =
        fmt2 giorno ++ fmt2 giorno ++ fmt2 mese ++ fmt2 (anno % 100) ++ sigla ∧
      lottoInternoApp giorno mese anno sigla =
        "L" ++ genera_lotto_interno giorno mese anno sigla) ∧
    lottoInternoApp 18 2 2026 "SC" = "L18180226SC" ∧
    genera_lotto_interno 18 2 2026 "SC" = "18180226SC" := by
  refine ⟨fun giorno mese anno sigla => ⟨rfl, ?_⟩, by decide, by decide⟩
  simp [lottoInternoApp, genera_lotto_interno, String.append_assoc]

/-! ## Claim C4: external lot normalization -/

/-- Modelled from the claim wording of C4, for comparison with the code:
map the empty string to the empty string, and otherwise trim, uppercase,
and prepend the prefix letter exactly when the uppercased trimmed string
does not already start with it. -/
def normLottoClaim (s : String) : String :=
  if s = "" then ""
  else
    match (pyStripL s.data).map Char.toUpper with
    | 'L' :: rest => ⟨'L' :: rest⟩
    | u => ⟨'L' :: u⟩

/-- C4 counterexample: on the one-blank input string the code returns the
input unchanged, while the claimed normalization (trim, uppercase,
prepend) would return the bare prefix letter, so the two differ. -/
theorem C4_counterexample :
    normLotto " " = " " ∧ normLottoClaim " " = "L" ∧
    normLotto " " ≠ normLottoClaim " " := by
  refine ⟨by decide, by decide, by decide⟩

/-- C4 amended: an input whose stripped form is empty (the empty string
or whitespace-only strings) is returned unchanged; every other input is
trimmed, uppercased, and prefixed with the letter exactly when the
uppercased trimmed string does not already start with it, matching the
claimed normalization.  The claimed examples hold. -/
theorem C4_amended :
    (∀ s : String,
      (pyStrip s = "" → normLotto s = s) ∧
      (pyStrip s ≠ "" → normLotto s = normLottoClaim s)) ∧
    normLotto "abc123" = "LABC123" ∧
    normLotto "Labc123" = "LABC123" ∧
    normLotto "" = "" := by
  refine ⟨fun s => ⟨?_, ?_⟩, by decide, by decide, by decide⟩
  · intro h
    have hl : pyStripL s.data = [] := by
      have := congrArg String.data h
      simpa [pyStrip] using this
    rw [normLotto, normLottoL, if_pos hl]
  · intro h
    have hl : pyStripL s.data ≠ [] := by
      intro hc
      exact h (by simp [pyStrip, hc])
    have hs : s ≠ "" := by
      intro hc
      subst hc
      exact h (by decide)
    rw [normLotto, normLottoL, if_neg hl, normLottoClaim, if_neg hs]
    split <;> rfl

/-- C4 witness: the amended theorem applied to the concrete input
abc123, discharging the non-blank hypothesis. -/
theorem C4_witness :
    pyStrip "abc123" ≠ "" ∧ normLotto "abc123" = normLottoClaim "abc123" :=
  ⟨by decide, (C4_amended.1 "abc123").2 (by decide)⟩

/-! ## Claim C6: cache validity and fast path -/

/-- C6: a cache snapshot is valid exactly when its timestamp is set and
strictly fewer than 30 seconds have elapsed since it, and a non-forced
read on a valid snapshot returns the cached triple with the state
untouched and without contacting the external store (final component
false). -/
theorem C6_cache_valid_fast_path :
    (∀ (now : Int) (c : CacheState),
      isCacheValid now c = true ↔ ∃ ts, c.timestamp = some ts ∧ now - ts < 30) ∧
    (∀ (now : Int) (fetch : FetchResult) (c : CacheState),
      isCacheValid now c = true →
      leggiDbCached false now fetch c =
        ((c.anagrafica, c.giacenze, c.sheetRef), c, false)) := by
  constructor
  · intro now c
    cases h : c.timestamp with
    | none => simp [isCacheValid, h]
    | some ts => simp [isCacheValid, h]
  · intro now fetch c h
    simp [leggiDbCached, h]

/-- C6 witness: a cache stamped at second 0 read at second 10 is valid
and is served from memory. -/
theorem C6_witness :
    isCacheValid 10 ⟨[], [], some 0, some 7⟩ = true ∧
    leggiDbCached false 10 none ⟨[], [], some 0, some 7⟩ =
      (([], [], some 7), ⟨[], [], some 0, some 7⟩, false) :=
  ⟨by decide, C6_cache_valid_fast_path.2 10 none ⟨[], [], some 0, some 7⟩ (by decide)⟩

/-! ## Claim C7: stale fallback on fetch failure -/

/-- C7: when a read actually consults the store (refresh forced or cache
invalid) and the fetch raises, the previous snapshot is returned
unchanged when the cached catalog is non-empty, and empty collections
with an absent handle otherwise; the model is a total function, so the
failure never escapes to the caller in either case. -/
theorem C7_stale_fallback :
    ∀ (force : Bool) (now : Int) (c : CacheState),
      (force = true ∨ isCacheValid now c = false) →
      (c.anagrafica ≠ [] →
        leggiDbCached force now none c =
          ((c.anagrafica, c.giacenze, c.sheetRef), c, true)) ∧
      (c.anagrafica = [] →
        leggiDbCached force now none c = (([], [], none), c, true)) := by
  intro force now c h
  have hcond : (!force && isCacheValid now c) = false := by
    rcases h with h | h
    · rw [h]; rfl
    · rw [h]; simp
  constructor
  · intro hne
    simp [leggiDbCached, hcond, hne]
  · intro he
    simp [leggiDbCached, hcond, he]

/-- C7 witness: a forced read whose fetch raises, on a cache holding one
catalog record, returns that snapshot unchanged. -/
theorem C7_witness :
    leggiDbCached true 50 none ⟨[[("PRODOTTO", "Latte")]], [], some 0, some 3⟩ =
      (([[("PRODOTTO", "Latte")]], [], some 3), ⟨[[("PRODOTTO", "Latte")]], [], some 0, some 3⟩, true) :=
  (C7_stale_fallback true 50 ⟨[[("PRODOTTO", "Latte")]], [], some 0, some 3⟩
    (Or.inl rfl)).1 (by decide)

/-! ## Claim C5: FIFO selector -/

theorem fifoLt_iff (a b : Nat × Nat) :
    fifoLt a b = true ↔ a.1 < b.1 ∨ (a.1 = b.1 ∧ a.2 < b.2) := by
  simp [fifoLt]

theorem fifoLt_false_iff (a b : Nat × Nat) :
    fifoLt a b = false ↔ ¬(a.1 < b.1 ∨ (a.1 = b.1 ∧ a.2 < b.2)) := by
  rw [← fifoLt_iff]
  cases fifoLt a b <;> simp

theorem foldl_fifoStep_ne_none (l : List StockRow) (g : StockRow) :
    l.foldl fifoStep (some g) ≠ none := by
  induction l generalizing g with
  | nil => simp
  | cons x t ih =>
    rw [List.foldl_cons]
    rcases hs : fifoStep (some g) x with _ | b
    · simp [fifoStep] at hs
      split at hs <;> simp_all
    · exact hs ▸ ih b

theorem foldl_fifoStep_mem (l : List StockRow) :
    ∀ (acc : Option StockRow) (g : StockRow),
      l.foldl fifoStep acc = some g → acc = some g ∨ g ∈ l := by
  induction l with
  | nil => intro acc g h; simp_all
  | cons x t ih =>
    intro acc g h
    rw [List.foldl_cons] at h
    rcases ih (fifoStep acc x) g h with h1 | h1
    · rcases acc with _ | b
      · simp [fifoStep] at h1
        subst h1
        exact Or.inr (by simp)
      · simp only [fifoStep] at h1
        split at h1
        · cases h1; exact Or.inr (by simp)
        · exact Or.inl h1
    · exact Or.inr (List.mem_cons_of_mem x h1)

theorem foldl_fifoStep_max (l : List StockRow) :
    ∀ (acc : Option StockRow) (g : StockRow),
      l.foldl fifoStep acc = some g →
      (∀ h ∈ l, fifoLt (fifoKey g) (fifoKey h) = false) ∧
      (∀ b, acc = some b → fifoLt (fifoKey g) (fifoKey b) = false) := by
  induction l with
  | nil =>
    intro acc g h
    refine ⟨by simp, ?_⟩
    intro b hb
    simp only [List.foldl_nil] at h
    rw [hb] at h
    cases h
    rw [fifoLt_false_iff]
    omega
  | cons x t ih =>
    intro acc g h
    rw [List.foldl_cons] at h
    obtain ⟨iht, ihacc⟩ := ih (fifoStep acc x) g h
    have hx : fifoLt (fifoKey g) (fifoKey x) = false ∧
        (∀ b, acc = some b → fifoLt (fifoKey g) (fifoKey b) = false) := by
      rcases acc with _ | b0
      · refine ⟨ihacc x rfl, ?_⟩
        intro b hb
        cases hb
      · simp only [fifoStep] at ihacc
        by_cases hlt : fifoLt (fifoKey b0) (fifoKey x) = true
        · have hgx : fifoLt (fifoKey g) (fifoKey x) = false := by
            have := ihacc x
            simp [hlt] at this
            exact this
          refine ⟨hgx, ?_⟩
          intro b hb
          cases hb
          rw [fifoLt_false_iff] at hgx ⊢
          rw [fifoLt_iff] at hlt
          omega
        · have hb0 : fifoLt (fifoKey g) (fifoKey b0) = false := by
            have := ihacc b0
            simp [hlt] at this
            exact this
          refine ⟨?_, ?_⟩
          · rw [fifoLt_false_iff] at hb0 ⊢
            have hlt' : fifoLt (fifoKey b0) (fifoKey x) = false := by
              cases hfb : fifoLt (fifoKey b0) (fifoKey x)
              · rfl
              · exact absurd hfb hlt
            rw [fifoLt_false_iff] at hlt'
            omega
          · intro b hb
            cases hb
            exact hb0
    refine ⟨?_, hx.2⟩
    intro h' hh'
    rcases List.mem_cons.mp hh' with h' | h'
    · subst h'; exact hx.1
    · exact iht _ h'

/-- C5: the FIFO selector yields nothing exactly when no stock row
matches the product name; a selected row is one of the matching rows and
its (parsed start date, row id) key is lexicographically maximal among
all matching rows (date descending, row id breaking ties); in
particular, among two rows of the same product dated 2024-01-01 in ISO
form and 01/03/2024 in the slash form, the 01/03/2024 row is selected. -/
theorem C5_fifo_selector :
    (∀ (giac : List StockRow) (nome : String),
      selectLatest giac nome = none ↔ fifoCandidates giac nome = []) ∧
    (∀ (giac : List StockRow) (nome : String) (g : StockRow),
      selectLatest giac nome = some g →
      g ∈ fifoCandidates giac nome ∧
      ∀ h ∈ fifoCandidates giac nome, fifoLt (fifoKey g) (fifoKey h) = false) ∧
    selectLatest
      [⟨2, "Latte", 5, "LA", "N/D", "2024-01-01"⟩,
       ⟨3, "Latte", 4, "LB", "N/D", "01/03/2024"⟩] "Latte" =
      some ⟨3, "Latte", 4, "LB", "N/D", "01/03/2024"⟩ := by
  refine ⟨?_, ?_, by decide⟩
  · intro giac nome
    unfold selectLatest
    cases hc : fifoCandidates giac nome with
    | nil => simp
    | cons x t =>
      rw [List.foldl_cons]
      have : fifoStep none x = some x := rfl
      rw [this]
      simp only [List.cons_ne_nil, iff_false]
      exact foldl_fifoStep_ne_none t x
  · intro giac nome g h
    unfold selectLatest at h
    have hmem := foldl_fifoStep_mem (fifoCandidates giac nome) none g h
    have hmax := foldl_fifoStep_max (fifoCandidates giac nome) none g h
    refine ⟨?_, hmax.1⟩
    rcases hmem with h1 | h1
    · cases h1
    · exact h1

/-- C5 witness: the selector applied to the two-row instance of the
claim, with the selection equation discharged concretely. -/
theorem C5_witness :
    (⟨3, "Latte", 4, "LB", "N/D", "01/03/2024"⟩ : StockRow) ∈
      fifoCandidates
        [⟨2, "Latte", 5, "LA", "N/D", "2024-01-01"⟩,
         ⟨3, "Latte", 4, "LB", "N/D", "01/03/2024"⟩] "Latte" ∧
    ∀ h ∈ fifoCandidates
        [⟨2, "Latte", 5, "LA", "N/D", "2024-01-01"⟩,
         ⟨3, "Latte", 4, "LB", "N/D", "01/03/2024"⟩] "Latte",
      fifoLt (fifoKey ⟨3, "Latte", 4, "LB", "N/D", "01/03/2024"⟩) (fifoKey h) = false :=
  C5_fifo_selector.2.1
    [⟨2, "Latte", 5, "LA", "N/D", "2024-01-01"⟩,
     ⟨3, "Latte", 4, "LB", "N/D", "01/03/2024"⟩] "Latte"
    ⟨3, "Latte", 4, "LB", "N/D", "01/03/2024"⟩ (by decide)

/-! ## Claim C8: label name layout -/

theorem length_dropWhile_le (p : Char → Bool) (l : List Char) :
    (l.dropWhile p).length ≤ l.length :=
  ((List.dropWhile_suffix p).sublist).length_le

theorem pyStripL_length_le (l : List Char) : (pyStripL l).length ≤ l.length := by
  unfold pyStripL
  calc ((l.dropWhile pyWs).reverse.dropWhile pyWs).reverse.length
      = ((l.dropWhile pyWs).reverse.dropWhile pyWs).length := by
        rw [List.length_reverse]
    _ ≤ (l.dropWhile pyWs).reverse.length := length_dropWhile_le _ _
    _ = (l.dropWhile pyWs).length := by rw [List.length_reverse]
    _ ≤ l.length := length_dropWhile_le _ _

/-- C8 counterexample: the 17-character single-word name is not
word-wrapped into two lines; the greedy scan cannot form a first line, so
the code truncates it into a single drawn 16-character line with an empty
second line (the small font is used, but only one line is drawn). -/
theorem C8_counterexample :
    ("abcdefghijklmnopq" : String).data.length = 17 ∧
    nomeLayout "abcdefghijklmnopq" = ⟨10, "abcdefghijklmnop", ""⟩ ∧
    drawnLines (nomeLayout "abcdefghijklmnopq") = 1 := by
  refine ⟨by decide, by decide, by decide⟩

/-- C8 amended: a name of at most 16 characters is drawn as that single
line in the size-12 font; a longer name switches to the size-10 font and
the greedy wrap, which draws at most two lines whose second line never
exceeds 16 characters but may be empty (a single word longer than the
limit yields one hard-truncated line); a 16-character name stays on one
line and a 17-character name with two fitting words is wrapped into
exactly two lines. -/
theorem C8_amended :
    (∀ nome : String, nome.data.length ≤ 16 → nomeLayout nome = ⟨12, nome, ""⟩) ∧
    (∀ nome : String, nome.data.length > 16 →
      (nomeLayout nome).font = 10 ∧
      (nomeLayout nome).line2.data.length ≤ 16 ∧
      drawnLines (nomeLayout nome) ≤ 2) ∧
    nomeLayout "abcdefghijklmnop" = ⟨12, "abcdefghijklmnop", ""⟩ ∧
    ("abcdefgh ijklmnop" : String).data.length = 17 ∧
    nomeLayout "abcdefgh ijklmnop" = ⟨10, "abcdefgh", "ijklmnop"⟩ ∧
    drawnLines (nomeLayout "abcdefgh ijklmnop") = 2 := by
  refine ⟨?_, ?_, by decide, by decide, by decide, by decide⟩
  · intro nome h
    unfold nomeLayout
    rw [if_neg (by omega)]
  · intro nome h
    have hdl : ∀ nl : NomeLayout, drawnLines nl ≤ 2 := by
      intro nl
      unfold drawnLines
      split <;> split <;> omega
    unfold nomeLayout
    rw [if_pos h]
    refine ⟨rfl, ?_, hdl _⟩
    show (spezzaNome nome.data).2.length ≤ 16
    have htake : ∀ l : List Char, (l.take 16).length ≤ 16 := by
      intro l
      simp [List.length_take]
    have hstrip : ∀ l : List Char, (pyStripL (l.take 16)).length ≤ 16 :=
      fun l => le_trans (pyStripL_length_le _) (htake l)
    simp only [spezzaNome]
    repeat' split
    all_goals first
      | exact hstrip _
      | exact htake _
      | simp

/-- C8 witness: the amended theorem applied to a 16-character name and a
17-character name. -/
theorem C8_witness :
    nomeLayout "abcdefghijklmnop" = ⟨12, "abcdefghijklmnop", ""⟩ ∧
    (nomeLayout "abcdefgh ijklmnop").font = 10 :=
  ⟨C8_amended.1 "abcdefghijklmnop" (by decide),
   (C8_amended.2.1 "abcdefgh ijklmnop" (by decide)).1⟩

/-! ## Claim C10: remove-quantity-by-product -/

/-- Total quantity of a list of stock rows. -/
def totaleQta (l : List StockRow) : Int := (l.map StockRow.qta).sum

theorem insertAsc_perm (key : StockRow → Nat) (g : StockRow) (l : List StockRow) :
    List.Perm (insertAsc key g l) (g :: l) := by
  induction l with
  | nil => rfl
  | cons h t ih =>
    unfold insertAsc
    split
    · exact ((ih.cons h).trans (List.Perm.swap g h t)).symm.symm
    · rfl

theorem sortAsc_perm (key : StockRow → Nat) (l : List StockRow) :
    List.Perm (sortAsc key l) l := by
  induction l with
  | nil => rfl
  | cons h t ih =>
    unfold sortAsc
    exact (insertAsc_perm key h (sortAsc key t)).trans (ih.cons h)

theorem totaleQta_nonneg (l : List StockRow) (h : ∀ g ∈ l, 0 < g.qta) :
    0 ≤ totaleQta l := by
  induction l with
  | nil => simp [totaleQta]
  | cons x t ih =>
    have hx := h x (by simp)
    have ht := ih (fun g hg => h g (List.mem_cons_of_mem x hg))
    simp only [totaleQta, List.map_cons, List.sum_cons]
    have : (0 : Int) ≤ (t.map StockRow.qta).sum := ht
    omega

theorem consumeRighe_rem (l : List StockRow) :
    ∀ rem : Int, 0 ≤ rem → (∀ g ∈ l, 0 < g.qta) →
      (consumeRighe rem l).2 = max 0 (rem - totaleQta l) := by
  induction l with
  | nil =>
    intro rem h0 _
    simp [consumeRighe, totaleQta]
    omega
  | cons r t ih =>
    intro rem h0 hpos
    have hr := hpos r (by simp)
    have ht : ∀ g ∈ t, 0 < g.qta := fun g hg => hpos g (List.mem_cons_of_mem r hg)
    have htn := totaleQta_nonneg t ht
    have htot : totaleQta (r :: t) = r.qta + totaleQta t := by
      simp [totaleQta]
    unfold consumeRighe
    split
    · rw [htot]
      omega
    · split
      · omega
      · split
        · rw [htot]
          simp only
          omega
        · simp only
          rw [ih (rem - r.qta) (by omega) ht, htot]
          omega

theorem consumeRighe_writes (l : List StockRow) :
    ∀ (rem : Int) (p : Nat × Int), p ∈ (consumeRighe rem l).1 →
      0 ≤ p.2 ∧ ∃ g ∈ l, g.rigaId = p.1 ∧ p.2 < g.qta := by
  induction l with
  | nil => intro rem p hp; simp [consumeRighe] at hp
  | cons r t ih =>
    intro rem p hp
    unfold consumeRighe at hp
    split at hp
    · simp at hp
    · split at hp
      · obtain ⟨h1, g, hg, h2⟩ := ih rem p hp
        exact ⟨h1, g, List.mem_cons_of_mem r hg, h2⟩
      · split at hp
        · simp only [List.mem_singleton] at hp
          subst hp
          refine ⟨by omega, r, by simp, rfl, by omega⟩
        · simp only [List.mem_cons] at hp
          rcases hp with hp | hp
          · subst hp
            refine ⟨le_refl 0, r, by simp, rfl, by omega⟩
          · obtain ⟨h1, g, hg, h2⟩ := ih (rem - r.qta) p hp
            exact ⟨h1, g, List.mem_cons_of_mem r hg, h2⟩

/-- C10: the removal route consumes the rows of the product oldest start date
first (ISO parse, current time as fallback for unparsable dates), writes
only non-negative quantities that are strict reductions of rows of that
product, stops once the requested amount is covered, and reports exactly
the minimum of the requested quantity and the total available quantity;
the concrete instances show the oldest row is consumed first with an
early stop, and the report capping at the available total. -/
theorem C10_remove_by_product :
    (∀ (giac : List StockRow) (nome : String) (qta : Int) (nowKey : Nat),
      1 ≤ qta →
      (∀ g ∈ righeDi giac nome, 0 < g.qta) →
      (cancellaCore giac nome qta nowKey).2 = min qta (totaleQta (righeDi giac nome)) ∧
      (∀ p ∈ (cancellaCore giac nome qta nowKey).1,
        0 ≤ p.2 ∧ ∃ g ∈ righeDi giac nome, g.rigaId = p.1 ∧ p.2 < g.qta)) ∧
    cancellaCore
      [⟨2, "Pane", 5, "L1", "N/D", "2024-01-02"⟩,
       ⟨3, "Pane", 5, "L2", "N/D", "2024-01-01"⟩] "Pane" 3 20260101 = ([(3, 2)], 3) ∧
    cancellaCore
      [⟨2, "Pane", 5, "L1", "N/D", "2024-01-02"⟩,
       ⟨3, "Pane", 5, "L2", "N/D", "2024-01-01"⟩] "Pane" 12 20260101 =
      ([(3, 0), (2, 0)], 10) := by
  refine ⟨?_, by decide, by decide⟩
  intro giac nome qta nowKey hq hpos
  have hperm := sortAsc_perm (fun g => dataCancellaKey nowKey g.dataInizio) (righeDi giac nome)
  have hpos' : ∀ g ∈ sortAsc (fun g => dataCancellaKey nowKey g.dataInizio) (righeDi giac nome), 0 < g.qta :=
    fun g hg => hpos g (hperm.mem_iff.mp hg)
  have htot : totaleQta (sortAsc (fun g => dataCancellaKey nowKey g.dataInizio) (righeDi giac nome)) =
      totaleQta (righeDi giac nome) := by
    unfold totaleQta
    exact (hperm.map StockRow.qta).sum_eq
  constructor
  · show qta - (consumeRighe qta _).2 = _
    rw [consumeRighe_rem _ qta (by omega) hpos', htot]
    have := totaleQta_nonneg (righeDi giac nome) hpos
    rcases le_total qta (totaleQta (righeDi giac nome)) with h | h
    · rw [min_eq_left h]
      omega
    · rw [min_eq_right h]
      omega
  · intro p hp
    obtain ⟨h1, g, hg, h2⟩ := consumeRighe_writes _ qta p hp
    exact ⟨h1, g, hperm.mem_iff.mp hg, h2⟩

/-- C10 witness: the general statement applied to the two-row Pane
instance. -/
theorem C10_witness :
    (cancellaCore
      [⟨2, "Pane", 5, "L1", "N/D", "2024-01-02"⟩,
       ⟨3, "Pane", 5, "L2", "N/D", "2024-01-01"⟩] "Pane" 3 20260101).2 =
      min 3 (totaleQta (righeDi
        [⟨2, "Pane", 5, "L1", "N/D", "2024-01-02"⟩,
         ⟨3, "Pane", 5, "L2", "N/D", "2024-01-01"⟩] "Pane")) :=
  (C10_remove_by_product.1
    [⟨2, "Pane", 5, "L1", "N/D", "2024-01-02"⟩,
     ⟨3, "Pane", 5, "L2", "N/D", "2024-01-01"⟩] "Pane" 3 20260101
    (by omega) (by decide)).1

/-! ## Claim C3: missing external lot -/

/-- C3 counterexample: an add-stock request for the external product
Yogurt with no existing stock and no supplied lot does not fail with the
missing-lot error and does not leave the store untouched: the route
reports success with the empty lot and appends a stock row whose lot cell
is empty. -/
theorem C3_counterexample :
    (aggiungiProdottoCore [[("PRODOTTO", "Yogurt"), ("CATEGORIA", "esterno"), ("SIGLA", "YO")]]
      [] [["Prodotto", "Qta", "Conf", "X", "Lotto", "Scad", "Inizio"]]
      "Yogurt" 2 "" 18 2 2026 "2026-02-28" "2026-02-18" true
      ⟨[], [], some 5, some 1⟩).risposta = .success "" ∧
    (aggiungiProdottoCore [[("PRODOTTO", "Yogurt"), ("CATEGORIA", "esterno"), ("SIGLA", "YO")]]
      [] [["Prodotto", "Qta", "Conf", "X", "Lotto", "Scad", "Inizio"]]
      "Yogurt" 2 "" 18 2 2026 "2026-02-28" "2026-02-18" true
      ⟨[], [], some 5, some 1⟩).sheet =
      [["Prodotto", "Qta", "Conf", "X", "Lotto", "Scad", "Inizio"],
       ["Yogurt", "2", "busta", "", "", "2026-02-28", "2026-02-18"]] := by
  refine ⟨by decide, by decide⟩

/-- C3 amended: on the single-print path, an external-category product
with no caller-supplied lot goes through the FIFO selector, and when the
selector yields no candidate, or a candidate whose lot normalizes to the
empty string, the request fails with status 400 and the missing-lot
message, with the sheet and the cache exactly as they were (no write is
issued); the add-stock path instead proceeds with the empty lot and
writes. -/
theorem C3_print_missing_lot_aborts :
    ∀ (anag : List AnagRec) (giac : List StockRow) (sheet : List (List String))
      (nomeIn lottoIn : String) (qtaIn : Int) (giorno mese anno : Nat)
      (scadSheet dataInizioSheet : String) (writeOk : Bool) (c : CacheState)
      (pInfo : AnagRec),
      pyStrip nomeIn ≠ "" →
      trovaProdotto anag (pyStrip nomeIn) = some pInfo →
      canonCategoria (campo pInfo "CATEGORIA") ≠ "interno" →
      pyStrip lottoIn = "" →
      (selectLatest giac (pyStrip nomeIn) = none ∨
        ∃ g, selectLatest giac (pyStrip nomeIn) = some g ∧ normLotto (pyStrip g.lotto) = "") →
      stampaSingoloCore anag giac sheet nomeIn lottoIn qtaIn giorno mese anno
        scadSheet dataInizioSheet writeOk c =
        ⟨.errore 400 "Lotto esterno mancante. Inseriscilo.", sheet, c⟩ := by
  intro anag giac sheet nomeIn lottoIn qtaIn giorno mese anno scadSheet dataInizioSheet
    writeOk c pInfo hnome htrova hcat hlotto hsel
  have hris : risolviLottoStampa pInfo giac (pyStrip nomeIn) lottoIn giorno mese anno =
      .error (400, "Lotto esterno mancante. Inseriscilo.") := by
    unfold risolviLottoStampa
    rw [if_neg hcat, if_neg (by simp [hlotto])]
    rcases hsel with hsel | ⟨g, hsel, hnorm⟩
    · rw [hsel]
    · rw [hsel]
      simp [hnorm]
  unfold stampaSingoloCore
  rw [if_neg hnome, htrova]
  simp [hris]

/-- C3 witness: the amended theorem applied to the Yogurt print request
with empty stock. -/
theorem C3_witness :
    stampaSingoloCore [[("PRODOTTO", "Yogurt"), ("CATEGORIA", "esterno"), ("SIGLA", "YO")]]
      [] [["Prodotto", "Qta", "Conf", "X", "Lotto", "Scad", "Inizio"]]
      "Yogurt" "" 2 18 2 2026 "2026-02-28" "2026-02-18" true ⟨[], [], some 5, some 1⟩ =
      ⟨.errore 400 "Lotto esterno mancante. Inseriscilo.",
        [["Prodotto", "Qta", "Conf", "X", "Lotto", "Scad", "Inizio"]],
        ⟨[], [], some 5, some 1⟩⟩ :=
  C3_print_missing_lot_aborts
    [[("PRODOTTO", "Yogurt"), ("CATEGORIA", "esterno"), ("SIGLA", "YO")]]
    [] [["Prodotto", "Qta", "Conf", "X", "Lotto", "Scad", "Inizio"]]
    "Yogurt" "" 2 18 2 2026 "2026-02-28" "2026-02-18" true ⟨[], [], some 5, some 1⟩
    [("PRODOTTO", "Yogurt"), ("CATEGORIA", "esterno"), ("SIGLA", "YO")]
    (by decide) (by decide) (by decide) (by decide) (Or.inl (by decide))

/-! ## Claim C9: cache invalidation after writes -/

/-- The batch loop either completes, reporting success and leaving the
invalidated cache, or aborts on a missing lot, reporting the 400 error
and leaving the cache exactly as it was. -/
theorem lineaLoop_cache (anag : List AnagRec) (giac : List StockRow)
    (giorno mese anno : Nat) (scadSheet dataInizioSheet : String) :
    ∀ (items : List LineaItem) (sheet : List (List String)) (c : CacheState),
      ((lineaLoop anag giac giorno mese anno scadSheet dataInizioSheet items sheet c).risposta = .success "" ∧
        (lineaLoop anag giac giorno mese anno scadSheet dataInizioSheet items sheet c).cache = invalidateCache c) ∨
      (∃ msg, (lineaLoop anag giac giorno mese anno scadSheet dataInizioSheet items sheet c).risposta = .errore 400 msg ∧
        (lineaLoop anag giac giorno mese anno scadSheet dataInizioSheet items sheet c).cache = c) := by
  intro items
  induction items with
  | nil => intro sheet c; exact Or.inl ⟨rfl, rfl⟩
  | cons it rest ih =>
    intro sheet c
    simp only [lineaLoop]
    split
    · exact ih sheet c
    · split
      · exact ih sheet c
      · split
        · exact Or.inr ⟨_, rfl, rfl⟩
        · exact ih _ c

/-- C9 counterexample: a single-print request on an external product
with a supplied lot reaches the write; when the remote write raises, the
route returns the 500 error without invalidating the cache (the
timestamp survives), while the identical request with a succeeding write
does invalidate it. -/
theorem C9_counterexample :
    (stampaSingoloCore [[("PRODOTTO", "Latte"), ("CATEGORIA", "esterno")]] []
      [["Prodotto", "Qta", "Conf", "X", "Lotto", "Scad", "Inizio"]]
      "Latte" "abc" 5 18 2 2026 "2026-02-28" "2026-02-18" false
      ⟨[], [], some 100, some 1⟩).risposta = .errore 500 "errore di scrittura" ∧
    (stampaSingoloCore [[("PRODOTTO", "Latte"), ("CATEGORIA", "esterno")]] []
      [["Prodotto", "Qta", "Conf", "X", "Lotto", "Scad", "Inizio"]]
      "Latte" "abc" 5 18 2 2026 "2026-02-28" "2026-02-18" false
      ⟨[], [], some 100, some 1⟩).cache.timestamp = some 100 ∧
    (stampaSingoloCore [[("PRODOTTO", "Latte"), ("CATEGORIA", "esterno")]] []
      [["Prodotto", "Qta", "Conf", "X", "Lotto", "Scad", "Inizio"]]
      "Latte" "abc" 5 18 2 2026 "2026-02-28" "2026-02-18" true
      ⟨[], [], some 100, some 1⟩).cache.timestamp = none := by
  refine ⟨by decide, by decide, by decide⟩

/-- C9 amended: the single-item mutation paths invalidate the cache
exactly when the write succeeds — a successful request leaves the
invalidated cache, while a raising write returns with the cache
untouched; the batch line-print path invalidates the cache after its
loop regardless of per-item write failures, except that a mid-loop
missing-lot abort returns with the cache untouched even after earlier
writes. -/
theorem C9_invalidate_on_success_only :
    (∀ (anag : List AnagRec) (giac : List StockRow) (sheet : List (List String))
      (nomeIn lottoIn : String) (qtaIn : Int) (giorno mese anno : Nat)
      (scadSheet dataInizioSheet : String) (writeOk : Bool) (c : CacheState) (lotto : String),
      (stampaSingoloCore anag giac sheet nomeIn lottoIn qtaIn giorno mese anno
        scadSheet dataInizioSheet writeOk c).risposta = .success lotto →
      (stampaSingoloCore anag giac sheet nomeIn lottoIn qtaIn giorno mese anno
        scadSheet dataInizioSheet writeOk c).cache = invalidateCache c) ∧
    (∀ (anag : List AnagRec) (giac : List StockRow) (sheet : List (List String))
      (nomeIn lottoIn : String) (qtaIn : Int) (giorno mese anno : Nat)
      (scadSheet dataInizioSheet : String) (c : CacheState),
      (stampaSingoloCore anag giac sheet nomeIn lottoIn qtaIn giorno mese anno
        scadSheet dataInizioSheet false c).cache = c) ∧
    (∀ (anag : List AnagRec) (giac : List StockRow) (items : List LineaItem)
      (giorno mese anno : Nat) (scadSheet dataInizioSheet : String)
      (sheet : List (List String)) (c : CacheState) (s : String),
      (stampaLineaTotaleCore anag giac items giorno mese anno scadSheet dataInizioSheet
        sheet c).risposta = .success s →
      (stampaLineaTotaleCore anag giac items giorno mese anno scadSheet dataInizioSheet
        sheet c).cache = invalidateCache c) ∧
    (∀ (anag : List AnagRec) (giac : List StockRow) (items : List LineaItem)
      (giorno mese anno : Nat) (scadSheet dataInizioSheet : String)
      (sheet : List (List String)) (c : CacheState) (st : Nat) (msg : String),
      (stampaLineaTotaleCore anag giac items giorno mese anno scadSheet dataInizioSheet
        sheet c).risposta = .errore st msg →
      (stampaLineaTotaleCore anag giac items giorno mese anno scadSheet dataInizioSheet
        sheet c).cache = c) := by
  refine ⟨?_, ?_, ?_, ?_⟩
  · intro anag giac sheet nomeIn lottoIn qtaIn giorno mese anno scadSheet dataInizioSheet
      writeOk c lotto
    simp only [stampaSingoloCore]
    repeat' split
    all_goals intro h
    all_goals first
      | rfl
      | simp at h
  · intro anag giac sheet nomeIn lottoIn qtaIn giorno mese anno scadSheet dataInizioSheet c
    simp only [stampaSingoloCore]
    repeat' split
    all_goals first
      | rfl
      | simp_all
  · intro anag giac items giorno mese anno scadSheet dataInizioSheet sheet c s h
    unfold stampaLineaTotaleCore at h ⊢
    rcases lineaLoop_cache anag giac giorno mese anno scadSheet dataInizioSheet items sheet c with
      ⟨_, h2⟩ | ⟨msg, h1, _⟩
    · exact h2
    · rw [h1] at h
      cases h
  · intro anag giac items giorno mese anno scadSheet dataInizioSheet sheet c st msg h
    unfold stampaLineaTotaleCore at h ⊢
    rcases lineaLoop_cache anag giac giorno mese anno scadSheet dataInizioSheet items sheet c with
      ⟨h1, _⟩ | ⟨msg2, h1, h2⟩
    · rw [h1] at h
      cases h
    · exact h2

/-- C9 witness: the amended theorem applied to a successful concrete
single-print write, whose cache comes out invalidated. -/
theorem C9_witness :
    (stampaSingoloCore [[("PRODOTTO", "Latte"), ("CATEGORIA", "esterno")]] []
      [["Prodotto", "Qta", "Conf", "X", "Lotto", "Scad", "Inizio"]]
      "Latte" "abc" 5 18 2 2026 "2026-02-28" "2026-02-18" true
      ⟨[], [], some 100, some 1⟩).cache =
      invalidateCache ⟨[], [], some 100, some 1⟩ :=
  C9_invalidate_on_success_only.1 [[("PRODOTTO", "Latte"), ("CATEGORIA", "esterno")]] []
    [["Prodotto", "Qta", "Conf", "X", "Lotto", "Scad", "Inizio"]]
    "Latte" "abc" 5 18 2 2026 "2026-02-28" "2026-02-18" true
    ⟨[], [], some 100, some 1⟩ "LABC" (by decide)

/-! ## Claim C1: machinery for the update-or-append write -/

theorem digitVal_digitChar {d : Nat} (h : d < 10) : digitVal (digitChar d) = d := by
  interval_cases d <;> decide

theorem digitChar_isDigit {d : Nat} (h : d < 10) : (digitChar d).isDigit = true := by
  interval_cases d <;> decide

theorem digitChar_not_ws {d : Nat} (h : d < 10) : pyWs (digitChar d) = false := by
  interval_cases d <;> decide

theorem digitChar_ne_minus {d : Nat} (h : d < 10) : digitChar d ≠ '-' := by
  interval_cases d <;> decide

theorem digitChar_ne_plus {d : Nat} (h : d < 10) : digitChar d ≠ '+' := by
  interval_cases d <;> decide

theorem digitsVal_append_one (xs : List Char) (c : Char) :
    digitsVal (xs ++ [c]) = digitsVal xs * 10 + digitVal c := by
  unfold digitsVal
  rw [List.foldl_append]
  rfl

theorem natDigitsAux_spec :
    ∀ fuel n, n < fuel →
      natDigitsAux fuel n ≠ [] ∧
      (∀ c ∈ natDigitsAux fuel n, ∃ d, d < 10 ∧ c = digitChar d) ∧
      digitsVal (natDigitsAux fuel n) = n := by
  intro fuel
  induction fuel with
  | zero => intro n h; omega
  | succ f ih =>
    intro n h
    unfold natDigitsAux
    split
    · refine ⟨by simp, ?_, ?_⟩
      · intro c hc
        simp only [List.mem_singleton] at hc
        exact ⟨n, by omega, hc⟩
      · show digitsVal ([] ++ [digitChar n]) = n
        rw [digitsVal_append_one]
        simp [digitsVal]
        exact digitVal_digitChar (by omega)
    · have hdiv : n / 10 < f := by
        have h10 : 10 ≤ n := by omega
        have := Nat.div_lt_self (by omega : 0 < n) (by omega : 1 < 10)
        omega
      obtain ⟨hne, hdig, hval⟩ := ih (n / 10) hdiv
      refine ⟨by simp [hne], ?_, ?_⟩
      · intro c hc
        rcases List.mem_append.mp hc with hc | hc
        · exact hdig c hc
        · simp only [List.mem_singleton] at hc
          exact ⟨n % 10, by omega, hc⟩
      · rw [digitsVal_append_one, hval, digitVal_digitChar (by omega)]
        omega

theorem natChars_spec (n : Nat) :
    natChars n ≠ [] ∧
    (∀ c ∈ natChars n, ∃ d, d < 10 ∧ c = digitChar d) ∧
    digitsVal (natChars n) = n :=
  natDigitsAux_spec (n + 1) n (by omega)

theorem pyIntL_natChars (n : Nat) : pyIntL (natChars n) = some (n : Int) := by
  obtain ⟨hne, hdig, hval⟩ := natChars_spec n
  have hnws : ∀ c ∈ natChars n, pyWs c = false := by
    intro c hc
    obtain ⟨d, hd, rfl⟩ := hdig c hc
    exact digitChar_not_ws hd
  have hstrip : pyStripL (natChars n) = natChars n := pyStripL_of_no_ws _ hnws
  have hall : (natChars n).all Char.isDigit = true := by
    rw [List.all_eq_true]
    intro c hc
    obtain ⟨d, hd, rfl⟩ := hdig c hc
    exact digitChar_isDigit hd
  obtain ⟨c, cs, hcons⟩ := List.exists_cons_of_ne_nil hne
  have hc : c ∈ natChars n := by rw [hcons]; simp
  obtain ⟨d, hd, hcd⟩ := hdig c hc
  unfold pyIntL
  rw [hstrip, hcons]
  have hcm : c ≠ '-' := hcd ▸ digitChar_ne_minus hd
  have hcp : c ≠ '+' := hcd ▸ digitChar_ne_plus hd
  split
  · rename_i ds heq
    exact absurd (List.cons.inj heq).1 hcm
  · rename_i ds heq
    exact absurd (List.cons.inj heq).1 hcp
  · rw [if_pos]
    · rw [← hcons, hval]
    · constructor
      · simp
      · rw [← hcons]
        exact hall

theorem pyInt_intToCell {n : Int} (h : 0 ≤ n) : pyInt (intToCell n) = some n := by
  unfold intToCell
  rw [if_neg (by omega)]
  show pyIntL (natChars n.toNat) = some n
  rw [pyIntL_natChars, Int.toNat_of_nonneg h]

theorem dropWhile_head_not (p : Char → Bool) :
    ∀ (l : List Char) (c : Char), (l.dropWhile p).head? = some c → p c = false := by
  intro l
  induction l with
  | nil => intro c h; simp at h
  | cons a t ih =>
    intro c h
    rw [List.dropWhile_cons] at h
    split at h
    · exact ih c h
    · rename_i ha
      rw [List.head?_cons] at h
      cases h
      simpa using ha

theorem dropWhile_one_step (p : Char → Bool) (l : List Char)
    (h : ∀ c, l.head? = some c → p c = false) : l.dropWhile p = l := by
  cases l with
  | nil => rfl
  | cons a t =>
    rw [List.dropWhile_cons, if_neg]
    simp [h a rfl]

theorem pyStripL_idem (l : List Char) : pyStripL (pyStripL l) = pyStripL l := by
  have hstep1 : ∀ m : List Char, (m.dropWhile pyWs).dropWhile pyWs = m.dropWhile pyWs := by
    intro m
    exact dropWhile_one_step pyWs _ (fun c hc => dropWhile_head_not pyWs m c hc)
  set A := l.dropWhile pyWs with hA
  set B := A.reverse.dropWhile pyWs with hB
  have hshape : pyStripL l = B.reverse := rfl
  rw [hshape]
  have hsplit : A.reverse.takeWhile pyWs ++ B = A.reverse :=
    List.takeWhile_append_dropWhile pyWs A.reverse
  have hAeq : A = B.reverse ++ (A.reverse.takeWhile pyWs).reverse := by
    have := congrArg List.reverse hsplit
    simpa using this.symm
  have hBr : B.reverse.dropWhile pyWs = B.reverse := by
    apply dropWhile_one_step
    intro c hc
    have hheadA : A.head? = some c := by
      cases hbr : B.reverse with
      | nil => rw [hbr] at hc; simp at hc
      | cons x xs =>
        rw [hAeq, hbr]
        rw [hbr] at hc
        simpa using hc
    exact dropWhile_head_not pyWs l c (by rw [← hA]; exact hheadA)
  show ((B.reverse.dropWhile pyWs).reverse.dropWhile pyWs).reverse = B.reverse
  rw [hBr, List.reverse_reverse, hB, hstep1]

theorem pyStrip_idem (s : String) : pyStrip (pyStrip s) = pyStrip s := by
  show (⟨pyStripL (pyStripL s.data)⟩ : String) = ⟨pyStripL s.data⟩
  rw [pyStripL_idem]

theorem mappaLookup_some_mem (giac : List StockRow) (k : String × String) :
    ∀ v, mappaLookup giac k = some v →
      ∃ g ∈ giac, chiaveDi g = k ∧ v = (g.rigaId, g.qta) := by
  induction giac with
  | nil => intro v h; simp [mappaLookup] at h
  | cons g gs ih =>
    intro v h
    unfold mappaLookup at h
    cases hw : mappaLookup gs k with
    | some w =>
      simp only [hw] at h
      cases h
      obtain ⟨g', hg', hk, hv⟩ := ih _ hw
      exact ⟨g', List.mem_cons_of_mem g hg', hk, hv⟩
    | none =>
      simp only [hw] at h
      split at h
      · cases h
        rename_i hk
        exact ⟨g, by simp, hk, rfl⟩
      · cases h

theorem mappaLookup_none_iff (giac : List StockRow) (k : String × String) :
    mappaLookup giac k = none ↔ ∀ g ∈ giac, chiaveDi g ≠ k := by
  induction giac with
  | nil => simp [mappaLookup]
  | cons g gs ih =>
    unfold mappaLookup
    cases hw : mappaLookup gs k with
    | some v =>
      simp only [reduceCtorEq, false_iff]
      intro hall
      obtain ⟨g', hg', hk, _⟩ := mappaLookup_some_mem gs k v hw
      exact hall g' (List.mem_cons_of_mem g hg') hk
    | none =>
      simp only [hw]
      constructor
      · intro h
        split at h
        · cases h
        · rename_i hneq
          intro g' hg'
          rcases List.mem_cons.mp hg' with hg' | hg'
          · subst hg'
            exact hneq
          · exact (ih.mp hw) g' hg'
      · intro hall
        rw [if_neg (hall g (by simp))]

theorem cleanFrom_append :
    ∀ (l1 l2 : List (List String)) (i : Nat),
      cleanFrom i (l1 ++ l2) = cleanFrom i l1 ++ cleanFrom (i + l1.length) l2 := by
  intro l1
  induction l1 with
  | nil => intro l2 i; simp [cleanFrom]
  | cons r rs ih =>
    intro l2 i
    show (if keepRow r then [mkRow i r] else []) ++ cleanFrom (i + 1) (rs ++ l2) = _
    rw [ih l2 (i + 1)]
    have : i + 1 + rs.length = i + (rs.length + 1) := by omega
    rw [this]
    simp [cleanFrom, List.append_assoc]

theorem cleanFrom_decomp :
    ∀ (j : Nat) (l : List (List String)) (i : Nat) (r : List String),
      l.get? j = some r →
      cleanFrom i l =
        cleanFrom i (l.take j) ++ (if keepRow r then [mkRow (i + j) r] else []) ++
          cleanFrom (i + j + 1) (l.drop (j + 1)) := by
  intro j
  induction j with
  | zero =>
    intro l i r h
    cases l with
    | nil => simp at h
    | cons x t =>
      simp only [List.get?_cons_zero, Option.some.injEq] at h
      subst h
      simp [cleanFrom]
  | succ j ih =>
    intro l i r h
    cases l with
    | nil => simp at h
    | cons x t =>
      have ht : t.get? j = some r := h
      show (if keepRow x then [mkRow i x] else []) ++ cleanFrom (i + 1) t = _
      rw [ih t (i + 1) r ht]
      have h1 : i + 1 + j = i + (j + 1) := by omega
      rw [h1]
      simp [cleanFrom, List.append_assoc]

theorem mem_cleanFrom :
    ∀ (l : List (List String)) (i : Nat) (g : StockRow),
      g ∈ cleanFrom i l →
      ∃ j r, l.get? j = some r ∧ keepRow r = true ∧ g = mkRow (i + j) r := by
  intro l
  induction l with
  | nil => intro i g h; simp [cleanFrom] at h
  | cons x t ih =>
    intro i g h
    show ∃ j r, _
    have h' : g ∈ (if keepRow x then [mkRow i x] else []) ++ cleanFrom (i + 1) t := h
    rcases List.mem_append.mp h' with h1 | h1
    · split at h1
      · rename_i hx
        simp only [List.mem_singleton] at h1
        exact ⟨0, x, rfl, hx, by simpa using h1⟩
      · simp at h1
    · obtain ⟨j, r, hg, hk, he⟩ := ih (i + 1) g h1
      refine ⟨j + 1, r, hg, hk, ?_⟩
      have : i + (j + 1) = i + 1 + j := by omega
      rw [this]
      exact he

theorem take_set_same (l : List (List String)) (j : Nat) (x : List String) :
    (l.set j x).take j = l.take j := by
  induction l generalizing j with
  | nil => simp
  | cons a t ih =>
    cases j with
    | zero => simp
    | succ j => simp [ih]

theorem drop_succ_set (l : List (List String)) (j : Nat) (x : List String) :
    (l.set j x).drop (j + 1) = l.drop (j + 1) := by
  induction l generalizing j with
  | nil => simp
  | cons a t ih =>
    cases j with
    | zero => simp
    | succ j =>
      show (t.set j x).drop (j + 1) = t.drop (j + 1)
      exact ih j

theorem drop_one_set (l : List (List String)) (j : Nat) (x : List String) :
    (l.set (j + 1) x).drop 1 = (l.drop 1).set j x := by
  cases l with
  | nil => rfl
  | cons a t => rfl

theorem get?_set_same {α : Type} {l : List α} {j : Nat} (x : α)
    (h : j < l.length) : (l.set j x).get? j = some x := by
  rw [List.get?_set_of_lt' x l (by simpa using h)]
  simp

theorem pyIntD_pos_length {r : List String} (h : 0 < pyIntD r) : 1 < r.length := by
  unfold pyIntD at h
  cases hg : r.get? 1 with
  | none => rw [hg] at h; simp at h
  | some s =>
    rcases List.get?_eq_some.mp hg with ⟨hl, _⟩
    exact hl

theorem headD_set_one {r : List String} (v : String) (h : r ≠ []) :
    (r.set 1 v).headD "" = r.headD "" := by
  cases r with
  | nil => exact absurd rfl h
  | cons a t => rfl

theorem getD_set_one_ne (r : List String) (v : String) (n : Nat) (h : n ≠ 1) :
    (r.set 1 v).getD n "N/D" = r.getD n "N/D" := by
  simp only [List.getD_eq_getElem?_getD]
  rw [List.getElem?_set_ne (by omega)]

theorem keepRow_pos {r : List String} (h : keepRow r = true) : 0 < pyIntD r := by
  unfold keepRow at h
  simp only [Bool.and_eq_true, decide_eq_true_eq] at h
  exact h.2

theorem keepRow_ne_nil {r : List String} (h : keepRow r = true) : r ≠ [] := by
  unfold keepRow at h
  simp only [Bool.and_eq_true, Bool.not_eq_true'] at h
  intro hc
  subst hc
  simp at h

/-- Updating the quantity cell of a kept row with a positive integer
value keeps the row and only changes its quantity field. -/
theorem mkRow_set_quantity {r : List String} (hk : keepRow r = true)
    (w : Int) (hw : 0 < w) (i : Nat) :
    keepRow (r.set 1 (intToCell w)) = true ∧
    mkRow i (r.set 1 (intToCell w)) =
      ⟨i, pyStrip (r.headD ""), w, r.getD 4 "N/D", r.getD 5 "N/D", r.getD 6 "N/D"⟩ := by
  have hq := keepRow_pos hk
  have hnn := keepRow_ne_nil hk
  have hlen := pyIntD_pos_length hq
  have hget : (r.set 1 (intToCell w)).get? 1 = some (intToCell w) :=
    get?_set_same (intToCell w) hlen
  have hint : pyIntD (r.set 1 (intToCell w)) = w := by
    unfold pyIntD
    rw [hget]
    show (pyInt (intToCell w)).getD 0 = w
    rw [pyInt_intToCell (by omega : (0 : Int) ≤ w)]
    rfl
  have hhead : (r.set 1 (intToCell w)).headD "" = r.headD "" := headD_set_one _ hnn
  constructor
  · unfold keepRow at hk ⊢
    simp only [Bool.and_eq_true, Bool.not_eq_true', decide_eq_true_eq] at hk ⊢
    refine ⟨⟨?_, ?_⟩, ?_⟩
    · rcases List.exists_cons_of_ne_nil hnn with ⟨b, bl, rfl⟩
      simp [List.isEmpty]
    · rw [hhead]
      exact hk.1.2
    · rw [hint]
      exact hw
  · unfold mkRow
    rw [hhead, hint, getD_set_one_ne r _ 4 (by omega), getD_set_one_ne r _ 5 (by omega),
      getD_set_one_ne r _ 6 (by omega)]

/-- On a hit of the reconciliation key, the update write replaces exactly
the matched cleaned row, adding the requested quantity to its quantity
field and leaving every other cleaned row unchanged. -/
theorem clean_engineWrite_update
    (sheet : List (List String)) (nome lotto scad din : String) (qta : Int)
    (hq : 1 ≤ qta) (rid : Nat) (q : Int)
    (hm : mappaLookup (clean sheet) (pyLower (pyStrip nome), lotto) = some (rid, q)) :
    ∃ pre g post,
      clean sheet = pre ++ g :: post ∧
      chiaveDi g = (pyLower (pyStrip nome), lotto) ∧ g.qta = q ∧
      clean (engineWrite (clean sheet) sheet nome lotto qta scad din) =
        pre ++ (⟨g.rigaId, g.prodotto, q + qta, g.lotto, g.scadenza, g.dataInizio⟩ : StockRow) :: post := by
  obtain ⟨g, hgmem, hkey, hval⟩ := mappaLookup_some_mem (clean sheet) _ _ hm
  obtain ⟨j, r, hget, hkeep, hgrow⟩ := mem_cleanFrom (sheet.drop 1) 2 g hgmem
  have hqpos : 0 < q := by
    have h1 : g.qta = pyIntD r := by
      rw [hgrow]
      rfl
    have h2 := keepRow_pos hkeep
    have h3 : q = g.qta := congrArg Prod.snd hval
    omega
  have hrid : rid = 2 + j := by
    have h3 : rid = g.rigaId := congrArg Prod.fst hval
    rw [h3, hgrow]
    rfl
  have hsheetget : sheet.get? (j + 1) = some r := by
    rw [← hget, List.get?_drop, Nat.add_comm 1 j]
  have hjlen : j < (sheet.drop 1).length := by
    rcases List.get?_eq_some.mp hget with ⟨hl, _⟩
    exact hl
  obtain ⟨hkeep', hmk'⟩ := mkRow_set_quantity hkeep (q + qta) (by omega) (2 + j)
  have hwrite : engineWrite (clean sheet) sheet nome lotto qta scad din =
      sheet.set (j + 1) (r.set 1 (intToCell (q + qta))) := by
    unfold engineWrite
    rw [hm]
    show updateCell sheet rid 2 (intToCell (q + qta)) = _
    unfold updateCell
    rw [hrid]
    have h21 : 2 + j - 1 = j + 1 := by omega
    rw [h21, hsheetget]
  refine ⟨cleanFrom 2 ((sheet.drop 1).take j),
    mkRow (2 + j) r,
    cleanFrom (2 + j + 1) ((sheet.drop 1).drop (j + 1)), ?_, ?_, ?_, ?_⟩
  · have hdec0 := cleanFrom_decomp j (sheet.drop 1) 2 r hget
    rw [hkeep] at hdec0
    show cleanFrom 2 (sheet.drop 1) = _
    rw [hdec0, if_pos rfl, List.append_assoc]
    rfl
  · rw [← hgrow]
    exact hkey
  · rw [← hgrow]
    exact (congrArg Prod.snd hval).symm
  · rw [hwrite]
    show cleanFrom 2 ((sheet.set (j + 1) (r.set 1 (intToCell (q + qta)))).drop 1) = _
    rw [drop_one_set]
    have hget' : ((sheet.drop 1).set j (r.set 1 (intToCell (q + qta)))).get? j =
        some (r.set 1 (intToCell (q + qta))) := get?_set_same _ hjlen
    have hdec := cleanFrom_decomp j ((sheet.drop 1).set j (r.set 1 (intToCell (q + qta)))) 2
      (r.set 1 (intToCell (q + qta))) hget'
    rw [hkeep', take_set_same, drop_succ_set] at hdec
    rw [hdec, if_pos rfl, List.append_assoc]
    have hmid : mkRow (2 + j) (r.set 1 (intToCell (q + qta))) =
        (⟨(mkRow (2 + j) r).rigaId, (mkRow (2 + j) r).prodotto, q + qta,
          (mkRow (2 + j) r).lotto, (mkRow (2 + j) r).scadenza,
          (mkRow (2 + j) r).dataInizio⟩ : StockRow) := by
      rw [hmk']
      rfl
    rw [hmid]
    rfl

theorem updateCell_length (sheet : List (List String)) (rid col : Nat) (v : String) :
    (updateCell sheet rid col v).length = sheet.length := by
  unfold updateCell
  cases hg : sheet.get? (rid - 1)
  · rfl
  · apply List.length_set

theorem chiavi_append_cons (pre post : List StockRow) (x : StockRow) :
    chiavi (pre ++ x :: post) = chiavi pre ++ chiaveDi x :: chiavi post := by
  simp [chiavi]

theorem toNat_ofNat_small {n : Nat} (h : n < 55296) : (Char.ofNat n).toNat = n := by
  unfold Char.ofNat
  rw [dif_pos (Or.inl h)]
  rfl

theorem toUpper_eq_self {d : Char} (h : ¬(d.toNat ≥ 97 ∧ d.toNat ≤ 122)) :
    d.toUpper = d := by
  show (if d.toNat ≥ 97 ∧ d.toNat ≤ 122 then Char.ofNat (d.toNat - 32) else d) = d
  exact if_neg h

theorem toUpper_toNat_lower {c : Char} (h : c.toNat ≥ 97 ∧ c.toNat ≤ 122) :
    c.toUpper.toNat = c.toNat - 32 := by
  show (if c.toNat ≥ 97 ∧ c.toNat ≤ 122 then Char.ofNat (c.toNat - 32) else c).toNat = _
  rw [if_pos h]
  exact toNat_ofNat_small (by omega)

theorem toUpper_toUpper (c : Char) : c.toUpper.toUpper = c.toUpper := by
  by_cases h : c.toNat ≥ 97 ∧ c.toNat ≤ 122
  · have h1 := toUpper_toNat_lower h
    exact toUpper_eq_self (by omega)
  · rw [toUpper_eq_self h]
    exact toUpper_eq_self h

theorem pyWs_false_of_toNat {d : Char}
    (h : d.toNat ≠ 32 ∧ d.toNat ≠ 9 ∧ d.toNat ≠ 10 ∧ d.toNat ≠ 13 ∧
      d.toNat ≠ 11 ∧ d.toNat ≠ 12) : pyWs d = false := by
  unfold pyWs
  simp only [Bool.or_eq_false_iff, decide_eq_false_iff_not]
  refine ⟨⟨⟨⟨⟨?_, ?_⟩, ?_⟩, ?_⟩, ?_⟩, ?_⟩
  · intro he; exact h.1 (by rw [he]; rfl)
  · intro he; exact h.2.1 (by rw [he]; rfl)
  · intro he; exact h.2.2.1 (by rw [he]; rfl)
  · intro he; exact h.2.2.2.1 (by rw [he]; rfl)
  · intro he; exact h.2.2.2.2.1 (by rw [he]; rfl)
  · intro he; exact h.2.2.2.2.2 (by rw [he]; rfl)

theorem toUpper_not_ws {c : Char} (h : pyWs c = false) :
    pyWs c.toUpper = false := by
  by_cases hl : c.toNat ≥ 97 ∧ c.toNat ≤ 122
  · have h1 := toUpper_toNat_lower hl
    apply pyWs_false_of_toNat
    omega
  · rw [toUpper_eq_self hl]
    exact h

theorem pyStripL_eq_self_of_edges (l : List Char)
    (h1 : ∀ c, l.head? = some c → pyWs c = false)
    (h2 : ∀ c, l.getLast? = some c → pyWs c = false) :
    pyStripL l = l := by
  unfold pyStripL
  rw [dropWhile_one_step pyWs l h1]
  rw [dropWhile_one_step pyWs l.reverse
    (fun c hc => h2 c (by rwa [List.head?_reverse] at hc))]
  exact List.reverse_reverse l

theorem pyStripL_getLast_not_ws (l : List Char) (c : Char)
    (h : (pyStripL l).getLast? = some c) : pyWs c = false := by
  unfold pyStripL at h
  rw [List.getLast?_reverse] at h
  exact dropWhile_head_not pyWs _ c h

theorem pyStripL_head_not_ws (l : List Char) (c : Char)
    (h : (pyStripL l).head? = some c) : pyWs c = false := by
  set A := l.dropWhile pyWs with hA
  set B := A.reverse.dropWhile pyWs with hB
  have hshape : pyStripL l = B.reverse := rfl
  rw [hshape] at h
  have hsplit : A.reverse.takeWhile pyWs ++ B = A.reverse :=
    List.takeWhile_append_dropWhile pyWs A.reverse
  have hAeq : A = B.reverse ++ (A.reverse.takeWhile pyWs).reverse := by
    have := congrArg List.reverse hsplit
    simpa using this.symm
  have hheadA : A.head? = some c := by
    cases hbr : B.reverse with
    | nil => rw [hbr] at h; simp at h
    | cons x xs =>
      rw [hAeq, hbr]
      rw [hbr] at h
      simpa using h
  exact dropWhile_head_not pyWs l c (by rw [← hA]; exact hheadA)

theorem normMatch_cons_L (z : List Char) :
    (match 'L' :: z with
      | 'L' :: rest => 'L' :: rest
      | u => 'L' :: u) = 'L' :: z := rfl

/-- Every output of the external-lot normalizer applied to a stripped
string is itself a fixed point of the strip-then-normalize composite:
the lots the engine resolves on the external paths (and the empty lot of
the add-stock path) satisfy the fixed-point hypothesis of the
reconciliation invariant. -/
theorem normLotto_output_fixed (s : String) :
    normLotto (pyStrip (normLotto (pyStrip s))) = normLotto (pyStrip s) := by
  by_cases ht : pyStripL s.data = []
  · have h1 : normLotto (pyStrip s) = "" := by
      show (⟨normLottoL (pyStripL s.data)⟩ : String) = ""
      rw [ht]
      rfl
    rw [h1]
    decide
  · have hidem : pyStripL (pyStripL s.data) = pyStripL s.data := pyStripL_idem s.data
    have htlast : ∀ c, (pyStripL s.data).getLast? = some c → pyWs c = false :=
      fun c hc => pyStripL_getLast_not_ws s.data c hc
    have hnorm : normLottoL (pyStripL s.data) =
        match (pyStripL s.data).map Char.toUpper with
        | 'L' :: rest => 'L' :: rest
        | u => 'L' :: u := by
      unfold normLottoL
      rw [if_neg (by rw [hidem]; exact ht), hidem]
    obtain ⟨c0, rest, hcons⟩ :
        ∃ c0 rest, (pyStripL s.data).map Char.toUpper = c0 :: rest := by
      cases hm : (pyStripL s.data).map Char.toUpper with
      | nil => exact absurd (List.map_eq_nil_iff.mp hm) ht
      | cons a b => exact ⟨a, b, rfl⟩
    have humap : ((pyStripL s.data).map Char.toUpper).map Char.toUpper =
        (pyStripL s.data).map Char.toUpper := by
      rw [List.map_map]
      exact List.map_congr_left (fun a _ => toUpper_toUpper a)
    have hulast : ∀ c, ((pyStripL s.data).map Char.toUpper).getLast? = some c →
        pyWs c = false := by
      intro c hc
      rw [List.getLast?_map] at hc
      cases hg : (pyStripL s.data).getLast? with
      | none => rw [hg] at hc; cases hc
      | some d =>
        rw [hg] at hc
        have hcd : d.toUpper = c := by
          have h2 : some d.toUpper = some c := hc
          injection h2
        rw [← hcd]
        exact toUpper_not_ws (htlast d hg)
    have hmain : ∀ z : List Char,
        normLottoL (pyStripL s.data) = 'L' :: z →
        ('L' :: z).map Char.toUpper = 'L' :: z →
        (∀ c, ('L' :: z).getLast? = some c → pyWs c = false) →
        normLotto (pyStrip (normLotto (pyStrip s))) = normLotto (pyStrip s) := by
      intro z hy hupper hlast
      have hystr : normLotto (pyStrip s) = ⟨'L' :: z⟩ := by
        show (⟨normLottoL (pyStripL s.data)⟩ : String) = _
        rw [hy]
      have hstripy : pyStripL ('L' :: z) = 'L' :: z := by
        apply pyStripL_eq_self_of_edges
        · intro c hc
          simp only [List.head?_cons, Option.some.injEq] at hc
          rw [← hc]
          decide
        · exact hlast
      have hstry : pyStrip (normLotto (pyStrip s)) = ⟨'L' :: z⟩ := by
        rw [hystr]
        show (⟨pyStripL ('L' :: z)⟩ : String) = _
        rw [hstripy]
      rw [hstry, hystr]
      show (⟨normLottoL ('L' :: z)⟩ : String) = _
      have hne : pyStripL ('L' :: z) ≠ [] := by
        rw [hstripy]
        exact List.cons_ne_nil _ _
      have hred : normLottoL ('L' :: z) = 'L' :: z := by
        unfold normLottoL
        rw [if_neg hne, hstripy, hupper]
        exact normMatch_cons_L z
      rw [hred]
    by_cases hC : c0 = 'L'
    · subst hC
      refine hmain rest ?_ ?_ ?_
      · rw [hnorm, hcons]
        exact normMatch_cons_L rest
      · rw [← hcons]
        exact humap
      · intro c hc
        exact hulast c (by rw [hcons]; exact hc)
    · refine hmain (c0 :: rest) ?_ ?_ ?_
      · rw [hnorm, hcons]
        have hdeflt : (match c0 :: rest with
            | 'L' :: rest => 'L' :: rest
            | u => 'L' :: u) = 'L' :: c0 :: rest := by
          split
          · rename_i ds heq
            exact absurd (List.cons.inj heq).1 hC
          · rfl
        exact hdeflt
      · show 'L'.toUpper :: (c0 :: rest).map Char.toUpper = _
        rw [← hcons, humap, hcons]
        rfl
      · intro c hc
        apply hulast c
        rw [hcons]
        rw [List.getLast?_cons_cons] at hc
        exact hc

instance (giac : List StockRow) : Decidable (atMostOnePerKey giac) :=
  inferInstanceAs (Decidable (chiavi giac).Nodup)

/-- Catalog fixture: an internal product whose short code is the
lowercase sc, exactly as a catalog sheet may hold it. -/
def anagInterno : List AnagRec :=
  [[("PRODOTTO", "Latte"), ("CATEGORIA", "interno"), ("SIGLA", "sc")]]

/-- Stock sheet fixture: the header row only. -/
def fogliVuoto : List (List String) :=
  [["Prodotto", "Qta", "Conf", "X", "Lotto", "Scad", "Inizio"]]

/-- First single-print request of the duplicate-key scenario: quantity 5
for the internal product, lot resolved by the engine. -/
def primoEsito : EsitoMutazione :=
  stampaSingoloCore anagInterno (clean fogliVuoto) fogliVuoto "Latte" "" 5 18 2 2026
    "2026-03-01" "2026-02-18" true ⟨[], [], none, none⟩

/-- Second single-print request of the duplicate-key scenario: quantity
3 for the same product and day, against the sheet left by the first. -/
def secondoEsito : EsitoMutazione :=
  stampaSingoloCore anagInterno (clean primoEsito.sheet) primoEsito.sheet "Latte" "" 3 18 2 2026
    "2026-03-01" "2026-02-18" true ⟨[], [], none, none⟩

/-- C1 amended: for every mutation write, a hit of the reconciliation
key updates the quantity cell of the matching row to its existing
quantity plus the requested one and appends no row, and a miss appends
exactly one new row carrying the requested quantity.  The
at-most-one-row-per-key invariant of the cleaned snapshot and the
fold-into-one-row behaviour (writing quantity 5 and then quantity 3 for
the same product and lot leaves one cleaned row with quantity 8) hold
for every write whose resolved lot is a fixed point of the
strip-then-normalize composite; the final conjunct shows every
normalizer output is such a fixed point, so every external-path lot and
the empty add-stock lot qualify.  An internal lot built from a short
code that is not already stripped uppercase escapes the hypothesis, and
there the code duplicates a cleaned key (see the counterexample). -/
theorem C1_write_folds_by_key :
    (∀ (sheet : List (List String)) (nome lotto : String) (qta : Int) (scad din : String),
      (∀ rid q, mappaLookup (clean sheet) (pyLower (pyStrip nome), lotto) = some (rid, q) →
        engineWrite (clean sheet) sheet nome lotto qta scad din =
          updateCell sheet rid 2 (intToCell (q + qta)) ∧
        (engineWrite (clean sheet) sheet nome lotto qta scad din).length = sheet.length) ∧
      (mappaLookup (clean sheet) (pyLower (pyStrip nome), lotto) = none →
        engineWrite (clean sheet) sheet nome lotto qta scad din =
          sheet ++ [[nome, intToCell qta, "busta", "", lotto, scad, din]]) ∧
      (normLotto (pyStrip lotto) = lotto → 1 ≤ qta → atMostOnePerKey (clean sheet) →
        atMostOnePerKey (clean (engineWrite (clean sheet) sheet nome lotto qta scad din)) ∧
        (∀ rid q, mappaLookup (clean sheet) (pyLower (pyStrip nome), lotto) = some (rid, q) →
          snapshotQ (engineWrite (clean sheet) sheet nome lotto qta scad din) =
            (clean sheet).map (fun g =>
              (chiaveDi g,
                if chiaveDi g = (pyLower (pyStrip nome), lotto) then g.qta + qta
                else g.qta))))) ∧
    snapshotQ
      (engineWrite
        (clean (engineWrite
          (clean [["Prodotto", "Qta", "Conf", "X", "Lotto", "Scad", "Inizio"]])
          [["Prodotto", "Qta", "Conf", "X", "Lotto", "Scad", "Inizio"]]
          "Latte" "LABC" 5 "2026-01-01" "2026-01-01"))
        (engineWrite
          (clean [["Prodotto", "Qta", "Conf", "X", "Lotto", "Scad", "Inizio"]])
          [["Prodotto", "Qta", "Conf", "X", "Lotto", "Scad", "Inizio"]]
          "Latte" "LABC" 5 "2026-01-01" "2026-01-01")
        "Latte" "LABC" 3 "2026-01-02" "2026-01-02") =
      [(("latte", "LABC"), 8)] ∧
    (∀ s : String, normLotto (pyStrip (normLotto (pyStrip s))) = normLotto (pyStrip s)) := by
  refine ⟨?_, by decide, normLotto_output_fixed⟩
  intro sheet nome lotto qta scad din
  refine ⟨?_, ?_, ?_⟩
  · intro rid q h
    constructor
    · unfold engineWrite
      rw [h]
    · unfold engineWrite
      rw [h]
      show (updateCell sheet rid 2 (intToCell (q + qta))).length = sheet.length
      exact updateCell_length sheet rid 2 _
  · intro h
    unfold engineWrite
    rw [h]
    rfl
  · intro hL hq hnd
    cases hm : mappaLookup (clean sheet) (pyLower (pyStrip nome), lotto) with
    | some val =>
      obtain ⟨rid0, q0⟩ := val
      obtain ⟨pre, g, post, hcs, hkg, hgq, hca⟩ :=
        clean_engineWrite_update sheet nome lotto scad din qta hq rid0 q0 hm
      have hmidkey : chiaveDi
          (⟨g.rigaId, g.prodotto, q0 + qta, g.lotto, g.scadenza, g.dataInizio⟩ : StockRow) =
          chiaveDi g := rfl
      have hnd' : (chiavi pre ++ chiaveDi g :: chiavi post).Nodup := by
        have := hnd
        unfold atMostOnePerKey at this
        rw [hcs, chiavi_append_cons] at this
        exact this
      constructor
      · unfold atMostOnePerKey
        rw [hca, chiavi_append_cons, hmidkey]
        exact hnd'
      · intro rid q hm'
        have hrid : rid0 = rid := by cases hm'; rfl
        have hq0 : q0 = q := by cases hm'; rfl
        subst hrid
        subst hq0
        have hknotpre : chiaveDi g ∉ chiavi pre := by
          have h1 := List.nodup_middle.mp hnd'
          intro hc
          exact (List.nodup_cons.mp h1).1 (List.mem_append.mpr (Or.inl hc))
        have hknotpost : chiaveDi g ∉ chiavi post := by
          have h1 := List.nodup_middle.mp hnd'
          intro hc
          exact (List.nodup_cons.mp h1).1 (List.mem_append.mpr (Or.inr hc))
        unfold snapshotQ
        rw [hca, hcs, List.map_append, List.map_append, List.map_cons, List.map_cons]
        have hpre : pre.map (fun h => (chiaveDi h, h.qta)) =
            pre.map (fun h =>
              (chiaveDi h,
                if chiaveDi h = (pyLower (pyStrip nome), lotto) then h.qta + qta else h.qta)) := by
          apply List.map_congr_left
          intro a ha
          have : chiaveDi a ≠ (pyLower (pyStrip nome), lotto) := by
            intro hc
            exact hknotpre (hkg ▸ hc ▸ List.mem_map_of_mem chiaveDi ha)
          rw [if_neg this]
        have hpost : post.map (fun h => (chiaveDi h, h.qta)) =
            post.map (fun h =>
              (chiaveDi h,
                if chiaveDi h = (pyLower (pyStrip nome), lotto) then h.qta + qta else h.qta)) := by
          apply List.map_congr_left
          intro a ha
          have : chiaveDi a ≠ (pyLower (pyStrip nome), lotto) := by
            intro hc
            exact hknotpost (hkg ▸ hc ▸ List.mem_map_of_mem chiaveDi ha)
          rw [if_neg this]
        rw [← hpre, ← hpost]
        have hpair :
            (chiaveDi (⟨g.rigaId, g.prodotto, q0 + qta, g.lotto, g.scadenza,
                g.dataInizio⟩ : StockRow),
              (⟨g.rigaId, g.prodotto, q0 + qta, g.lotto, g.scadenza,
                g.dataInizio⟩ : StockRow).qta) =
            (chiaveDi g,
              if chiaveDi g = (pyLower (pyStrip nome), lotto) then g.qta + qta
              else g.qta) := by
          rw [hmidkey, hkg, if_pos rfl, hgq]
        rw [hpair]
    | none =>
      constructor
      · have happ : engineWrite (clean sheet) sheet nome lotto qta scad din =
            sheet ++ [[nome, intToCell qta, "busta", "", lotto, scad, din]] := by
          unfold engineWrite
          rw [hm]
          rfl
        rw [happ]
        have hknot : (pyLower (pyStrip nome), lotto) ∉ chiavi (clean sheet) := by
          intro hc
          obtain ⟨g, hg, hgk⟩ := List.mem_map.mp hc
          exact (mappaLookup_none_iff (clean sheet) _).mp hm g hg hgk
        cases sheet with
        | nil =>
          show atMostOnePerKey (cleanFrom 2 (List.drop 1 _))
          simp [cleanFrom, atMostOnePerKey, chiavi]
        | cons hd tl =>
          show atMostOnePerKey (cleanFrom 2 ((tl ++ [[nome, intToCell qta, "busta", "", lotto, scad, din]])))
          unfold atMostOnePerKey
          rw [cleanFrom_append]
          have hsingle : ∀ i, cleanFrom i [[nome, intToCell qta, "busta", "", lotto, scad, din]] =
              (if keepRow [nome, intToCell qta, "busta", "", lotto, scad, din] then
                [mkRow i [nome, intToCell qta, "busta", "", lotto, scad, din]] else []) := by
            intro i
            show (if _ then _ else []) ++ cleanFrom (i + 1) [] = _
            show (if _ then _ else []) ++ [] = _
            rw [List.append_nil]
          rw [hsingle]
          cases hkr : keepRow [nome, intToCell qta, "busta", "", lotto, scad, din] with
          | false =>
            rw [if_neg (by simp [hkr])]
            rw [List.append_nil]
            exact hnd
          | true =>
            rw [if_pos (by simp [hkr])]
            have hkeynew : chiaveDi
                (mkRow (2 + tl.length) [nome, intToCell qta, "busta", "", lotto, scad, din]) =
                (pyLower (pyStrip nome), lotto) := by
              show (pyLower (pyStrip (pyStrip nome)), normLotto (pyStrip lotto)) = _
              rw [pyStrip_idem, hL]
            unfold chiavi
            rw [List.map_append]
            simp only [List.map_cons, List.map_nil]
            rw [hkeynew]
            rw [List.nodup_append]
            refine ⟨hnd, by simp, ?_⟩
            rw [List.disjoint_singleton]
            exact hknot
      · intro rid q hm'
        cases hm'

/-- C1 witness: the general statement applied to a sheet holding one
Latte row with lot LABC and quantity 5, written with quantity 3: the
invariant conclusion is obtained with every hypothesis discharged
concretely. -/
theorem C1_witness :
    atMostOnePerKey (clean (engineWrite
      (clean [["Prodotto", "Qta", "Conf", "X", "Lotto", "Scad", "Inizio"],
              ["Latte", "5", "busta", "", "LABC", "2026-01-01", "2026-01-01"]])
      [["Prodotto", "Qta", "Conf", "X", "Lotto", "Scad", "Inizio"],
       ["Latte", "5", "busta", "", "LABC", "2026-01-01", "2026-01-01"]]
      "Latte" "LABC" 3 "2026-01-02" "2026-01-02")) :=
  ((C1_write_folds_by_key.1
    [["Prodotto", "Qta", "Conf", "X", "Lotto", "Scad", "Inizio"],
     ["Latte", "5", "busta", "", "LABC", "2026-01-01", "2026-01-01"]]
    "Latte" "LABC" 3 "2026-01-02" "2026-01-02").2.2
    (by decide) (by decide) (by unfold atMostOnePerKey; decide)).1

/-- C1 counterexample: with the catalog short code sc (lowercase), the
single-print route resolves the internal lot L18180226sc, which
normalization would change; writing quantity 5 and then quantity 3
through the full route on an empty stock sheet appends twice, ending
with two cleaned rows carrying the same (lowercased name, normalized
lot) key: the claimed at-most-one-row-per-key invariant is not preserved
by every write, and the same (product, lot) pair ends with two rows
instead of one row of quantity 8. -/
theorem C1_counterexample :
    primoEsito.risposta = .success "L18180226sc" ∧
    atMostOnePerKey (clean primoEsito.sheet) ∧
    secondoEsito.risposta = .success "L18180226sc" ∧
    (clean secondoEsito.sheet).length = 2 ∧
    (clean secondoEsito.sheet).map chiaveDi =
      [("latte", "L18180226SC"), ("latte", "L18180226SC")] ∧
    ¬ atMostOnePerKey (clean secondoEsito.sheet) := by
  refine ⟨by decide, by decide, by decide, by decide, by decide, by decide⟩
